import Mathlib

/-!
# dnscontrol: CAA record setters and the name.com provider

A shallow embedding of `models/t_caa.go` and `providers/namedotcom/records.go`.

Conventions of the embedding

* A Go `string` is a Lean `String` (the text is taken to be valid UTF-8); the
  functions that scan a string work on its list of characters (`String.data`).
* Records behind pointers are values.  The slices the code walks hold one
  pointer per record, so a loop that writes through the pointers is a map over
  the list.
* Go's fixed-width unsigned integers are `Nat`; a narrowing conversion such as
  `uint8(x)` is written `x % 256`.  Signed 32-bit values that are only stored
  and compared (`ID`, `Page`, `NextPage`) are `Int`.
* A method with a pointer receiver takes the record and gives back the record
  as the call left it, together with the way the call ended: it returned, or
  it panicked.
* A Go `error` is a value of `GoError`; the `nil` error is `none`.
-/

namespace DNSControl

/-! ## Errors and outcomes -/

/-- The two sentinel errors of package `strconv`. -/
inductive NumErrKind where
  | errSyn
  | errRange
  deriving DecidableEq, Repr

/-- Go `error` values that the embedded code builds or passes on.  Formatted
messages are kept as the format text with its arguments. -/
inductive GoError where
  /-- Go `*strconv.NumError` with fields `Func`, `Num`, `Err`. -/
  | numError (func num : String) (kind : NumErrKind)
  /-- Go `errors.Errorf(format, args...)`. -/
  | errorf (format : String) (args : List String)
  /-- Go `errors.Wrap(cause, msg)`. -/
  | wrap (cause : GoError) (msg : String)
  /-- An error handed back by the provider's client library. -/
  | provider (text : String)
  deriving DecidableEq, Repr

/-- The value a Go `panic` carries: a message, an error, or the run-time error
of a nil dereference or failed type assertion. -/
inductive PanicValue where
  | text (msg : String)
  | error (err : GoError)
  | runtime (what : String)
  deriving DecidableEq, Repr

/-- How a Go call ends: it returns a value or it panics. -/
inductive Outcome (α : Type) where
  | returned (v : α)
  | panicked (v : PanicValue)
  deriving DecidableEq, Repr

/-! ## Data model -/

/-- The provider's wire record, `namecom.Record`. -/
structure NamecomRecord where
  ID : Int
  DomainName : String
  Host : String
  Fqdn : String
  Type_ : String
  Answer : String
  TTL : Nat
  Priority : Nat
  deriving DecidableEq, Repr

/-- The fields of `models.RecordConfig` that the embedded functions read or
write.  `Original` is the back-reference to the provider record; it is `none`
for a declared record. -/
structure RecordConfig where
  Type_ : String
  Name : String
  NameFQDN : String
  Target : String
  TTL : Nat
  MxPreference : Nat
  SrvPriority : Nat
  SrvWeight : Nat
  SrvPort : Nat
  CaaTag : String
  CaaFlag : Nat
  TxtStrings : List String
  Original : Option NamecomRecord
  deriving DecidableEq, Repr

/-- A record after a call on it, and how the call ended. -/
structure RcExec where
  rc : RecordConfig
  out : Outcome (Option GoError)
  deriving DecidableEq, Repr

/-! ## Go standard library: `unicode.IsSpace`, `strings.Fields`, `strconv.ParseUint` -/

/-- Go `unicode.IsSpace`: the Unicode White_Space code points. -/
def isSpace (c : Char) : Bool :=
  let n := c.toNat
  (9 ≤ n && n ≤ 13) || n == 32 || n == 133 || n == 160 || n == 5760 ||
  (8192 ≤ n && n ≤ 8202) || n == 8232 || n == 8233 || n == 8239 || n == 8287 ||
  n == 12288

/-- The scan of `strings.Fields`: `cur` holds the characters of the field being
read, last character first. -/
def fieldsAux : List Char → List Char → List (List Char)
  | [], cur => if cur = [] then [] else [cur.reverse]
  | c :: cs, cur =>
    if isSpace c then
      if cur = [] then fieldsAux cs [] else cur.reverse :: fieldsAux cs []
    else fieldsAux cs (c :: cur)

/-- Go `strings.Fields`: the maximal runs of non-space characters, in order. -/
def Fields (s : String) : List String :=
  (fieldsAux s.data []).map String.mk

/-- The digit loop of `strconv.ParseUint` for base 10: `n` is the value read so
far and `maxVal` the largest value of the requested bit size. -/
def parseUintLoop (maxVal : Nat) : List Char → Nat → Except NumErrKind Nat
  | [], n => .ok n
  | c :: cs, n =>
    if 48 ≤ c.toNat ∧ c.toNat ≤ 57 then
      let d := c.toNat - 48
      -- n*base overflows uint64
      if n ≥ (2 ^ 64 - 1) / 10 + 1 then .error .errRange
      else
        let n1 := n * 10 + d
        if n1 > maxVal then .error .errRange
        else parseUintLoop maxVal cs n1
    else .error .errSyn

/-- Go `strconv.ParseUint(s, 10, bitSize)` for `0 < bitSize ≤ 64`: the value,
or the `*NumError` it returns. -/
def ParseUint (s : String) (bitSize : Nat) : Except GoError Nat :=
  if s.data = [] then .error (.numError "ParseUint" s .errSyn)
  else
    match parseUintLoop (2 ^ bitSize - 1) s.data 0 with
    | .ok n => .ok n
    | .error k => .error (.numError "ParseUint" s k)

/-! ## `models/t_caa.go` -/

/-- Modelled from the spec: `models.StripQuotes` is not among the embedded
files; the spec says that quotes around the third field are stripped on parse.
A string that starts and ends with a double quote (two characters at least)
loses both; any other string is returned as it is. -/
def StripQuotes (s : String) : String :=
  match s.data with
  | c :: rest =>
    if c = Char.ofNat 34 ∧ rest.getLast? = some (Char.ofNat 34) then String.mk rest.dropLast
    else s
  | [] => s

/-- Go `SetTargetCAA` sets the CAA fields. -/
def SetTargetCAA (rc : RecordConfig) (flag : Nat) (tag target : String) : RcExec :=
  let rc := { rc with CaaTag := tag }
  let rc := { rc with CaaFlag := flag }
  let rc := { rc with Target := target }
  let rc := if rc.Type_ = "" then { rc with Type_ := "CAA" } else rc
  if rc.Type_ ≠ "CAA" then
    ⟨rc, .panicked (.text "assertion failed: SetTargetCAA called when .Type is not CAA")⟩
  else
    ⟨rc, .returned none⟩

/-- Go `SetTargetCAAStrings` is like `SetTargetCAA` but accepts strings. -/
def SetTargetCAAStrings (rc : RecordConfig) (flag tag target : String) : RcExec :=
  match ParseUint flag 8 with
  | .error err => ⟨rc, .returned (some (.wrap err "CAA flag does not fit in 8 bits"))⟩
  | .ok i64flag => SetTargetCAA rc (i64flag % 256) tag target

/-- Go `SetTargetCAAString` is like `SetTargetCAA` but accepts one big string. -/
def SetTargetCAAString (rc : RecordConfig) (s : String) : RcExec :=
  match Fields s with
  | [p0, p1, p2] => SetTargetCAAStrings rc p0 p1 (StripQuotes p2)
  | _ => ⟨rc, .returned (some (.errorf "CAA value does not contain 3 fields: (%#v)" [s]))⟩

/-- A record with every field at its Go zero value. -/
def RecordConfig.zero : RecordConfig :=
  ⟨"", "", "", "", 0, 0, 0, 0, 0, "", 0, [], none⟩

/-! ## The name.com client library -/

/-- The request of `namecom.ListRecords`: the fields the code sets.  `Page`
and `NextPage` are `int32` in the client library. -/
structure ListRecordsRequest where
  DomainName : String
  Page : Int
  deriving DecidableEq, Repr

/-- The response of `namecom.ListRecords`: the fields the code reads. -/
structure ListRecordsResponse where
  Records : List NamecomRecord
  NextPage : Int
  deriving DecidableEq, Repr

/-- The request of `namecom.DeleteRecord`. -/
structure DeleteRecordRequest where
  DomainName : String
  ID : Int
  deriving DecidableEq, Repr

/-- One request sent to the provider. -/
inductive Request where
  | list (r : ListRecordsRequest)
  | create (r : NamecomRecord)
  | delete (r : DeleteRecordRequest)
  deriving DecidableEq, Repr

/-- The provider behind the client: a state of type `σ` and the three calls the
code makes.  Each call gives the provider's next state and what the client
returns (the response or the error; for create and delete only the error is
used by the code). -/
structure Client (σ : Type) where
  ListRecords : σ → ListRecordsRequest → σ × Except GoError ListRecordsResponse
  CreateRecord : σ → NamecomRecord → σ × Option GoError
  DeleteRecord : σ → DeleteRecordRequest → σ × Option GoError

/-- The provider adapter `NameCom`. -/
structure NameCom (σ : Type) where
  client : Client σ

/-- The provider's state together with the requests sent so far, oldest first. -/
structure World (σ : Type) where
  st : σ
  sent : List Request
  deriving DecidableEq

/-! ## Types of packages `models` and `diff` -/

/-- The fields of `models.DomainConfig` the code uses. -/
structure DomainConfig where
  Name : String
  Records : List RecordConfig
  deriving DecidableEq, Repr

/-- An entry of a `diff.Changeset`: `diff.Correlation`. -/
structure Correlation where
  Existing : Option RecordConfig
  Desired : Option RecordConfig
  deriving DecidableEq, Repr

/-- The three change sets of `IncrementalDiff` that the code uses. -/
structure DiffResult where
  create : List Correlation
  del : List Correlation
  mod : List Correlation
  deriving DecidableEq, Repr

/-- Go `models.Correction`: a message and the action `F`.  The action runs against
the provider and ends by returning an error (or `nil`) or by panicking. -/
structure Correction (σ : Type) where
  Msg : String
  F : World σ → World σ × Outcome (Option GoError)

/-- The functions of packages `models`, `diff` and `dnsutil` that
`records.go` calls and whose code is outside the embedded files.  They are
taken as they come; none of them has access to the provider's client. -/
structure Deps where
  /-- Go `(*DomainConfig).Punycode`, which rewrites the records in place. -/
  Punycode : DomainConfig → DomainConfig
  /-- Go `(*RecordConfig).SetLabelFQDN(fqdn, origin)`. -/
  SetLabelFQDN : RecordConfig → String → String → Outcome RecordConfig
  /-- Go `(*RecordConfig).SetTargetMX(pref, target)`. -/
  SetTargetMX : RecordConfig → Nat → String → RcExec
  /-- Go `(*RecordConfig).SetTargetSRVPriorityString(prio, s)`. -/
  SetTargetSRVPriorityString : RecordConfig → Nat → String → RcExec
  /-- Go `(*RecordConfig).PopulateFromString(rtype, contents, origin)`. -/
  PopulateFromString : RecordConfig → String → String → String → RcExec
  /-- Go `models.PostProcessRecords`, which rewrites the records in place. -/
  PostProcessRecords : List RecordConfig → List RecordConfig
  /-- Go `diff.New(dc).IncrementalDiff(actual)`. -/
  IncrementalDiff : DomainConfig → List RecordConfig → Outcome DiffResult
  /-- Go `diff.Correlation.String`. -/
  CorrelationString : Correlation → String
  /-- Go `(*RecordConfig).TargetTXTQuoted`. -/
  TargetTXTQuoted : RecordConfig → String
  /-- Go `dnsutil.TrimDomainName(s, origin)`. -/
  TrimDomainName : String → String → String

/-! ## `providers/namedotcom/records.go` -/

/-- The loop of `checkNSModifications`: `newList` is the list built so far. -/
def checkNSLoop (name : String) : List RecordConfig → List RecordConfig → List RecordConfig
  | [], newList => newList
  | rec :: rest, newList =>
    if rec.Type_ = "NS" ∧ rec.NameFQDN = name then
      -- Apex NS records are automatically created and cannot be managed.
      checkNSLoop name rest newList
    else
      checkNSLoop name rest (newList ++ [rec])

/-- Go `checkNSModifications(dc)`: the domain configuration it leaves. -/
def checkNSModifications (dc : DomainConfig) : DomainConfig :=
  { dc with Records := checkNSLoop dc.Name dc.Records [] }

/-- Go `strings.HasSuffix`. -/
def HasSuffix (s suffix : String) : Bool :=
  suffix.data.isSuffixOf s.data

/-- Go `s[:len(s)-1]` for a string whose last byte is an ASCII character. -/
def dropLastByte (s : String) : String :=
  String.mk s.data.dropLast

/-- Go `toRecord(r, origin)`. -/
def toRecord (d : Deps) (r : NamecomRecord) (origin : String) : Outcome RecordConfig :=
  let rc : RecordConfig :=
    { RecordConfig.zero with Type_ := r.Type_, TTL := r.TTL, Original := some r }
  if ¬ HasSuffix r.Fqdn "." then
    .panicked (.error (.errorf "namedotcom suddenly changed protocol. Bailing. (%v)" [r.Fqdn]))
  else
    let fqdn := dropLastByte r.Fqdn
    match d.SetLabelFQDN rc fqdn origin with
    | .panicked v => .panicked v
    | .returned rc =>
      if r.Type_ = "MX" then
        match d.SetTargetMX rc (r.Priority % 65536) r.Answer with
        | ⟨_, .panicked v⟩ => .panicked v
        | ⟨_, .returned (some err)⟩ =>
          .panicked (.error (.wrap err "can not parse MX info received from ndc"))
        | ⟨rc, .returned none⟩ => .returned rc
      else if r.Type_ = "SRV" then
        match d.SetTargetSRVPriorityString rc (r.Priority % 65536) (r.Answer ++ ".") with
        | ⟨_, .panicked v⟩ => .panicked v
        | ⟨_, .returned (some err)⟩ =>
          .panicked (.error (.wrap err "can not parse SRV info received from ndc"))
        | ⟨rc, .returned none⟩ => .returned rc
      else
        match d.PopulateFromString rc r.Type_ r.Answer r.Fqdn with
        | ⟨_, .panicked v⟩ => .panicked v
        | ⟨_, .returned (some err)⟩ =>
          .panicked (.error (.wrap err "received unparsable data from provider"))
        | ⟨rc, .returned none⟩ => .returned rc

/-- Sending one list request: the provider moves on and the request is noted. -/
def sendList (n : NameCom σ) (w : World σ) (request : ListRecordsRequest) :
    World σ × Except GoError ListRecordsResponse :=
  let r := n.client.ListRecords w.st request
  (⟨r.1, w.sent ++ [.list request]⟩, r.2)

/-- The paging loop of `getRecords`, `for request.Page > 0`.  The loop has no
bound of its own, so the embedding counts requests down from `fuel`; `none`
means the fuel ran out with the loop still going. -/
def getRecordsLoop (n : NameCom σ) (domain : String) :
    Nat → World σ → Int → List NamecomRecord → Option (World σ × Except GoError (List NamecomRecord))
  | fuel, w, page, records =>
    if page > 0 then
      match fuel with
      | 0 => none
      | fuel + 1 =>
        match sendList n w ⟨domain, page⟩ with
        | (w, .error err) => some (w, .error err)
        | (w, .ok response) =>
          getRecordsLoop n domain fuel w response.NextPage (records ++ response.Records)
    else some (w, .ok records)

/-- The second loop of `getRecords`, on one record. -/
def fixAnswer (rc : NamecomRecord) : NamecomRecord :=
  if rc.Type_ = "CNAME" ∨ rc.Type_ = "ANAME" ∨ rc.Type_ = "MX" ∨ rc.Type_ = "NS" then
    { rc with Answer := rc.Answer ++ "." }
  else rc

/-- Go `getRecords(domain)`: the world after the call and the pair the call returns. -/
def getRecords (n : NameCom σ) (fuel : Nat) (domain : String) (w : World σ) :
    Option (World σ × (List NamecomRecord × Option GoError)) :=
  match getRecordsLoop n domain fuel w 1 [] with
  | none => none
  | some (w, .error err) => some (w, ([], some err))
  | some (w, .ok records) => some (w, (records.map fixAnswer, none))

/-- Go `strings.Replace(s, "\"", "\\\"", -1)` on the characters of `s`. -/
def escapeQuotes : List Char → List Char
  | [] => []
  | c :: cs => if c = Char.ofNat 34 then Char.ofNat 92 :: Char.ofNat 34 :: escapeQuotes cs
               else c :: escapeQuotes cs

/-- Sending one create request. -/
def sendCreate (n : NameCom σ) (w : World σ) (record : NamecomRecord) :
    World σ × Option GoError :=
  let r := n.client.CreateRecord w.st record
  (⟨r.1, w.sent ++ [.create record]⟩, r.2)

/-- Go `createRecord(rc, domain)`.  The debugging print of the TXT case is left out. -/
def createRecord (d : Deps) (n : NameCom σ) (rc : RecordConfig) (domain : String) (w : World σ) :
    World σ × Outcome (Option GoError) :=
  let record : NamecomRecord :=
    { ID := 0, DomainName := domain, Host := d.TrimDomainName rc.NameFQDN domain, Fqdn := "",
      Type_ := rc.Type_, Answer := rc.Target, TTL := rc.TTL, Priority := rc.MxPreference }
  if rc.Type_ ∈ ["A", "AAAA", "ANAME", "CNAME", "MX", "NS"] then
    let r := sendCreate n w record
    (r.1, .returned r.2)
  else if rc.Type_ = "TXT" then
    let record :=
      if rc.TxtStrings.length > 1 then
        { record with
          Answer := "\"" ++ String.mk (escapeQuotes (d.TargetTXTQuoted rc).data) ++ "\"" }
      else
        { record with Answer := d.TargetTXTQuoted rc }
    let r := sendCreate n w record
    (r.1, .returned r.2)
  else if rc.Type_ = "SRV" then
    let record :=
      { record with
        Answer := toString rc.SrvWeight ++ " " ++ toString rc.SrvPort ++ " " ++ rc.Target,
        Priority := rc.SrvPriority }
    let r := sendCreate n w record
    (r.1, .returned r.2)
  else
    (w, .panicked (.text ("createRecord rtype " ++ rc.Type_ ++ " unimplemented")))

/-- Go `deleteRecord(id, domain)`. -/
def deleteRecord (n : NameCom σ) (id : Int) (domain : String) (w : World σ) :
    World σ × Option GoError :=
  let request : DeleteRecordRequest := { DomainName := domain, ID := id }
  let r := n.client.DeleteRecord w.st request
  (⟨r.1, w.sent ++ [.delete request]⟩, r.2)

/-- The action of a delete correction. -/
def delAction (n : NameCom σ) (rec : NamecomRecord) (domain : String) (w : World σ) :
    World σ × Outcome (Option GoError) :=
  let r := deleteRecord n rec.ID domain w
  (r.1, .returned r.2)

/-- A call `createRecord(rec, domain)` whose `rec` may be the nil pointer:
reading a field of nil panics before anything is sent. -/
def createRecordPtr (d : Deps) (n : NameCom σ) (rec : Option RecordConfig) (domain : String)
    (w : World σ) : World σ × Outcome (Option GoError) :=
  match rec with
  | none => (w, .panicked (.runtime "invalid memory address or nil pointer dereference"))
  | some rc => createRecord d n rc domain w

/-- The action of a create correction. -/
def createAction (d : Deps) (n : NameCom σ) (rec : Option RecordConfig) (domain : String)
    (w : World σ) : World σ × Outcome (Option GoError) :=
  createRecordPtr d n rec domain w

/-- The action of a replace correction: delete, then create unless the delete
failed. -/
def modAction (d : Deps) (n : NameCom σ) (old : NamecomRecord) (new : Option RecordConfig)
    (domain : String) (w : World σ) : World σ × Outcome (Option GoError) :=
  match deleteRecord n old.ID domain w with
  | (w, some err) => (w, .returned (some err))
  | (w, none) => createRecordPtr d n new domain w

/-- The expression `e.Existing.Original.(*namecom.Record)`. -/
def existingOriginal (e : Correlation) : Outcome NamecomRecord :=
  match e.Existing with
  | none => .panicked (.runtime "invalid memory address or nil pointer dereference")
  | some existing =>
    match existing.Original with
    | none => .panicked (.runtime "interface conversion: interface is nil, not *namecom.Record")
    | some rec => .returned rec

/-- The loop over `del`, appending to `corrections`. -/
def delLoop (d : Deps) (n : NameCom σ) (domain : String) :
    List Correlation → List (Correction σ) → Outcome (List (Correction σ))
  | [], corrections => .returned corrections
  | e :: rest, corrections =>
    match existingOriginal e with
    | .panicked v => .panicked v
    | .returned rec =>
      let c : Correction σ := { Msg := d.CorrelationString e, F := delAction n rec domain }
      delLoop d n domain rest (corrections ++ [c])

/-- The loop over `create`, appending to `corrections`. -/
def createLoop (d : Deps) (n : NameCom σ) (domain : String) :
    List Correlation → List (Correction σ) → Outcome (List (Correction σ))
  | [], corrections => .returned corrections
  | cre :: rest, corrections =>
    let c : Correction σ :=
      { Msg := d.CorrelationString cre, F := createAction d n cre.Desired domain }
    createLoop d n domain rest (corrections ++ [c])

/-- The loop over `mod`, appending to `corrections`. -/
def modLoop (d : Deps) (n : NameCom σ) (domain : String) :
    List Correlation → List (Correction σ) → Outcome (List (Correction σ))
  | [], corrections => .returned corrections
  | chng :: rest, corrections =>
    match existingOriginal chng with
    | .panicked v => .panicked v
    | .returned old =>
      let new := chng.Desired
      let c : Correction σ :=
        { Msg := d.CorrelationString chng, F := modAction d n old new domain }
      modLoop d n domain rest (corrections ++ [c])

/-- The three loops of `GetDomainCorrections` that turn the change sets into
corrections. -/
def buildCorrections (d : Deps) (n : NameCom σ) (domain : String) (r : DiffResult) :
    Outcome (List (Correction σ)) :=
  match delLoop d n domain r.del [] with
  | .panicked v => .panicked v
  | .returned corrections =>
    match createLoop d n domain r.create corrections with
    | .panicked v => .panicked v
    | .returned corrections => modLoop d n domain r.mod corrections

/-- The loop that fills `actual`: `toRecord` on every fetched record, in order. -/
def toRecords (d : Deps) (origin : String) : List NamecomRecord → Outcome (List RecordConfig)
  | [] => .returned []
  | r :: rest =>
    match toRecord d r origin with
    | .panicked v => .panicked v
    | .returned rc =>
      match toRecords d origin rest with
      | .panicked v => .panicked v
      | .returned rcs => .returned (rc :: rcs)

/-- The body of the loop over `dc.Records` in `GetDomainCorrections`. -/
def rewriteAlias (rec : RecordConfig) : RecordConfig :=
  if rec.Type_ = "ALIAS" then { rec with Type_ := "ANAME" } else rec

/-- The declared side between the fetch and the differ: the alias loop, then
`checkNSModifications`. -/
def normalizeDeclared (dc : DomainConfig) : DomainConfig :=
  let dc := { dc with Records := dc.Records.map rewriteAlias }
  checkNSModifications dc

/-- What a call of `GetDomainCorrections` leaves and gives: the world, the
domain configuration behind the pointer `dc`, and the result. -/
structure GdcExec (σ : Type) where
  world : World σ
  dc : DomainConfig
  out : Outcome (List (Correction σ) × Option GoError)

/-- Go `GetDomainCorrections(dc)`.  `none` means the paging loop of `getRecords`
was still going when the fuel ran out.  The actions read `dc.Name` as it is
when the corrections are built. -/
def GetDomainCorrections (d : Deps) (n : NameCom σ) (fuel : Nat) (dc : DomainConfig)
    (w : World σ) : Option (GdcExec σ) :=
  let dc := d.Punycode dc
  match getRecords n fuel dc.Name w with
  | none => none
  | some (w, (_, some err)) => some ⟨w, dc, .returned ([], some err)⟩
  | some (w, (records, none)) =>
    match toRecords d dc.Name records with
    | .panicked v => some ⟨w, dc, .panicked v⟩
    | .returned actual =>
      let dc := normalizeDeclared dc
      -- Normalize
      let actual := d.PostProcessRecords actual
      match d.IncrementalDiff dc actual with
      | .panicked v => some ⟨w, dc, .panicked v⟩
      | .returned r =>
        match buildCorrections d n dc.Name r with
        | .panicked v => some ⟨w, dc, .panicked v⟩
        | .returned corrections => some ⟨w, dc, .returned (corrections, none)⟩

/-! ## Notions of the specification -/

/-- A decimal digit, `0` to `9`. -/
def isDecimalDigit (c : Char) : Bool :=
  48 ≤ c.toNat && c.toNat ≤ 57

/-- A base-10 unsigned numeral: one digit at least and nothing but digits. -/
def isDecimalNumeral (s : String) : Bool :=
  !s.data.isEmpty && s.data.all isDecimalDigit

/-- The number a string of digits denotes, most significant digit first. -/
def numeralValue (s : String) : Nat :=
  s.data.foldl (fun n c => 10 * n + (c.toNat - 48)) 0

/-- The double quote character. -/
def dquote : Char := Char.ofNat 34

/-- The record `rc` with type CAA and the given flag, tag and target, every
other field as it is in `rc`. -/
def caaRecord (rc : RecordConfig) (flag : Nat) (tag target : String) : RecordConfig :=
  { rc with Type_ := "CAA", CaaFlag := flag, CaaTag := tag, Target := target }

/-- An apex NS record of the zone `name`: an NS record whose owner is the zone name. -/
def isApexNS (name : String) (r : RecordConfig) : Bool :=
  r.Type_ == "NS" && r.NameFQDN == name

/-- The record with its type changed from ALIAS to ANAME and nothing else
changed; a record of another type as it is. -/
def aliasToAname (r : RecordConfig) : RecordConfig :=
  { r with Type_ := if r.Type_ = "ALIAS" then "ANAME" else r.Type_ }

/-- The record types `createRecord` has a case for. -/
def createTypes : List String := ["A", "AAAA", "ANAME", "CNAME", "MX", "NS", "TXT", "SRV"]

/-- The record types whose case in `createRecord` is empty. -/
def plainTypes : List String := ["A", "AAAA", "ANAME", "CNAME", "MX", "NS"]

/-- Exactly one create request, for `record`, is sent in world `w`, and the
error the client gives for it (or `nil`) is returned as it is. -/
def createSent (n : NameCom σ) (w : World σ) (record : NamecomRecord) :
    World σ × Outcome (Option GoError) :=
  (⟨(n.client.CreateRecord w.st record).1, w.sent ++ [.create record]⟩,
    .returned (n.client.CreateRecord w.st record).2)

/-- What holds of the correction `c` emitted for the replace entry `chng`: its
message is the entry's, and its action, in any world `w`, first sends the delete
request for the ID of the origin of `chng.Existing`.  When that delete fails,
the action returns the delete's error with nothing else sent.  When it succeeds,
the action goes on as `createRecord` on the desired record in the world the
delete left: for a desired record of one of the eight types `createRecord`
knows, exactly one create request follows and the client's result for it is
returned; for a desired record of another type no create request is sent and
the action panics. -/
def ReplaceCorrection (d : Deps) (n : NameCom σ) (domain : String) (chng : Correlation)
    (c : Correction σ) : Prop :=
  ∃ ex old, chng.Existing = some ex ∧ ex.Original = some old ∧
    c.Msg = d.CorrelationString chng ∧
    ∀ w : World σ,
      deleteRecord n old.ID domain w =
          (⟨(n.client.DeleteRecord w.st ⟨domain, old.ID⟩).1,
              w.sent ++ [.delete ⟨domain, old.ID⟩]⟩,
            (n.client.DeleteRecord w.st ⟨domain, old.ID⟩).2) ∧
        (∀ err, (deleteRecord n old.ID domain w).2 = some err →
          c.F w = ((deleteRecord n old.ID domain w).1, .returned (some err))) ∧
        ((deleteRecord n old.ID domain w).2 = none →
          ∀ new, chng.Desired = some new →
            c.F w = createRecord d n new domain (deleteRecord n old.ID domain w).1 ∧
            (new.Type_ ∈ createTypes →
              ∃ record, c.F w = createSent n (deleteRecord n old.ID domain w).1 record) ∧
            (new.Type_ ∉ createTypes →
              c.F w = ((deleteRecord n old.ID domain w).1,
                .panicked (.text ("createRecord rtype " ++ new.Type_ ++ " unimplemented")))))

/-- The provider serves a listing: from state `s`, the list request for page `p`
is answered without error by the first response, the request for the page that
response names by the second, and so on through `rs`; `s'` is the provider's
state after the last of them and `p'` the page the last response names (`s` and
`p` themselves when `rs` is empty). -/
def Serves (c : Client σ) (domain : String) :
    σ → Int → List ListRecordsResponse → σ → Int → Prop
  | s, p, [], s', p' => s' = s ∧ p' = p
  | s, p, r :: rs, s', p' =>
    (c.ListRecords s ⟨domain, p⟩).2 = .ok r ∧
      Serves c domain (c.ListRecords s ⟨domain, p⟩).1 r.NextPage rs s' p'

/-- The pages requested along a listing that starts at page `p`: `p`, then the
page each response but the last names. -/
def pagesOf : Int → List ListRecordsResponse → List Int
  | _, [] => []
  | p, r :: rs => p :: pagesOf r.NextPage rs

/-- The records of the responses, page after page. -/
def allRecords : List ListRecordsResponse → List NamecomRecord
  | [] => []
  | r :: rs => r.Records ++ allRecords rs

/-- The list requests for the given pages, in order. -/
def listRequests (domain : String) (pages : List Int) : List Request :=
  pages.map (fun p => .list ⟨domain, p⟩)

/-- The types whose answers `getRecords` is said to complete with a dot. -/
def dottedTypes : List String := ["CNAME", "ANAME", "MX", "NS"]

/-- The record `got` is the provider's record `prov` as a fetch should return
it: the answer with one `.` appended when the type is CNAME, ANAME, MX or NS
and the provider's answer otherwise, every other field as the provider gave
it; in particular an A, AAAA, TXT or SRV record is returned as served. -/
def FetchedAs (prov got : NamecomRecord) : Prop :=
  got.Answer = (if prov.Type_ ∈ dottedTypes then prov.Answer ++ "." else prov.Answer) ∧
    { got with Answer := prov.Answer } = prov ∧
    (prov.Type_ ∈ ["A", "AAAA", "TXT", "SRV"] → got = prov)

/-- The backslash character. -/
def backslash : Char := Char.ofNat 92

/-- The text with a backslash put before each of its double quotes. -/
def backslashEscaped (s : String) : String :=
  String.mk (s.data.flatMap (fun c => if c = dquote then [backslash, dquote] else [c]))

/-- One TXT segment wrapped in double quotes, its own double quotes
backslash-escaped. -/
def quoteSegment (t : String) : String :=
  "\"" ++ backslashEscaped t ++ "\""

/-- The concatenation, in segment order, of the segments each wrapped and
escaped on its own. -/
def quotedSegments : List String → String
  | [] => ""
  | t :: ts => quoteSegment t ++ quotedSegments ts

/-- The full stop character. -/
def dot : Char := Char.ofNat 46

/-- The record `toRecord` starts from: the provider record's type and TTL, the
provider record as origin, every other field at its zero value. -/
def freshRecord (r : NamecomRecord) : RecordConfig :=
  { RecordConfig.zero with Type_ := r.Type_, TTL := r.TTL, Original := some r }

/-- A delete correction for the entry `e`: its message is the entry's, and its
action, in any world, sends exactly one delete request, for the ID of the origin
of `e.Existing`, and returns the client's error result as it is. -/
def DeleteCorrection (d : Deps) (n : NameCom σ) (domain : String) (e : Correlation)
    (c : Correction σ) : Prop :=
  ∃ ex old, e.Existing = some ex ∧ ex.Original = some old ∧
    c.Msg = d.CorrelationString e ∧
    ∀ w : World σ,
      c.F w =
        (⟨(n.client.DeleteRecord w.st ⟨domain, old.ID⟩).1, w.sent ++ [.delete ⟨domain, old.ID⟩]⟩,
          .returned (n.client.DeleteRecord w.st ⟨domain, old.ID⟩).2)

/-- A create correction for the entry `e`: its message is the entry's, and its
action, in any world, is one call of `createRecord` on the entry's desired
record: for a record of one of the eight types `createRecord` knows, exactly
one create request is sent and the client's result for it is returned; for a
record of another type nothing is sent and the action panics. -/
def CreateCorrection (d : Deps) (n : NameCom σ) (domain : String) (e : Correlation)
    (c : Correction σ) : Prop :=
  c.Msg = d.CorrelationString e ∧
    ∀ new, e.Desired = some new → ∀ w : World σ,
      c.F w = createRecord d n new domain w ∧
        (new.Type_ ∈ createTypes → ∃ record, c.F w = createSent n w record) ∧
        (new.Type_ ∉ createTypes →
          c.F w = (w, .panicked (.text ("createRecord rtype " ++ new.Type_ ++ " unimplemented"))))

/-- The entry has an existing record and that record has an origin, so that
`e.Existing.Original.(*namecom.Record)` does not panic. -/
def hasOrigin (e : Correlation) : Bool :=
  (e.Existing.bind (fun ex => ex.Original)).isSome

/-! ## Example inputs -/

/-- Stand-ins for the outside functions, used to run the code on examples:
no rewriting, labels and targets stored as given, an empty diff. -/
def exampleDeps : Deps where
  Punycode := fun dc => dc
  SetLabelFQDN := fun rc fqdn _ => .returned { rc with NameFQDN := fqdn }
  SetTargetMX := fun rc pref target =>
    ⟨{ rc with MxPreference := pref, Target := target }, .returned none⟩
  SetTargetSRVPriorityString := fun rc prio s =>
    ⟨{ rc with SrvPriority := prio, Target := s }, .returned none⟩
  PopulateFromString := fun rc _ contents _ => ⟨{ rc with Target := contents }, .returned none⟩
  PostProcessRecords := fun recs => recs
  IncrementalDiff := fun _ _ => .returned ⟨[], [], []⟩
  CorrelationString := fun _ => "CHANGE"
  TargetTXTQuoted := fun rc => "\"" ++ String.intercalate "\" \"" rc.TxtStrings ++ "\""
  TrimDomainName := fun s _ => s

/-- A declared record of the examples. -/
def exampleRecord (type_ nameFQDN target : String) : RecordConfig :=
  { RecordConfig.zero with Type_ := type_, NameFQDN := nameFQDN, Target := target, TTL := 300 }

/-- A declared zone of the examples: an apex NS record, an ALIAS record, an A
record twice, and an NS record below the apex. -/
def exampleZone : DomainConfig :=
  { Name := "example.com",
    Records := [exampleRecord "NS" "example.com" "ns1.name.com.",
      exampleRecord "ALIAS" "example.com" "example.org.",
      exampleRecord "A" "www.example.com" "1.2.3.4",
      exampleRecord "NS" "sub.example.com" "ns.example.net.",
      exampleRecord "A" "www.example.com" "1.2.3.4"] }

/-- A provider record of the examples. -/
def exampleWire (id : Int) (type_ fqdn answer : String) : NamecomRecord :=
  { ID := id, DomainName := "example.com", Host := "", Fqdn := fqdn, Type_ := type_,
    Answer := answer, TTL := 300, Priority := 0 }

/-- A provider of the examples.  Its state counts the requests it has served.
The listing has two pages, page 1 naming page 2 and page 2 naming no further
page; the list request for page `failAt` fails, and so does the delete request
for ID 13. -/
def exampleClient (failAt : Int) : Client Nat where
  ListRecords := fun s req =>
    if req.Page = failAt then (s + 1, .error (.provider "listing failed"))
    else if req.Page = 1 then
      (s + 1, .ok ⟨[exampleWire 11 "CNAME" "www.example.com." "example.org"], 2⟩)
    else if req.Page = 2 then
      (s + 1, .ok ⟨[exampleWire 12 "A" "example.com." "1.2.3.4",
        exampleWire 13 "MX" "example.com." "mail.example.org"], 0⟩)
    else (s + 1, .error (.provider "no such page"))
  CreateRecord := fun s _ => (s + 1, none)
  DeleteRecord := fun s req =>
    if req.ID = 13 then (s + 1, some (.provider "delete failed")) else (s + 1, none)

/-- The stand-ins with a differ that replaces every fetched record by the
first declared one. -/
def exampleReplaceDeps : Deps :=
  { exampleDeps with
    IncrementalDiff := fun dc actual =>
      .returned ⟨[], [], actual.map (fun a => ⟨some a, dc.Records.head?⟩)⟩ }

/-- The corrections `GetDomainCorrections` returns for the example zone at the
example provider. -/
def exampleCorrections : List (Correction Nat) :=
  match GetDomainCorrections exampleReplaceDeps (NameCom.mk (exampleClient 0)) 5 exampleZone
      ⟨0, []⟩ with
  | some ⟨_, _, .returned (cs, _)⟩ => cs
  | _ => []

/-- The two pages of the example provider. -/
def examplePages : List ListRecordsResponse :=
  [⟨[exampleWire 11 "CNAME" "www.example.com." "example.org"], 2⟩,
    ⟨[exampleWire 12 "A" "example.com." "1.2.3.4",
      exampleWire 13 "MX" "example.com." "mail.example.org"], 0⟩]

/-- A provider whose first page names page -1 as the next one, and whose page
-1 names no further page. -/
def negativePageClient : Client Nat where
  ListRecords := fun s req =>
    if req.Page = 1 then
      (s + 1, .ok ⟨[exampleWire 21 "A" "a.example.com." "1.2.3.4"], -1⟩)
    else if req.Page = -1 then
      (s + 1, .ok ⟨[exampleWire 22 "A" "b.example.com." "5.6.7.8"], 0⟩)
    else (s + 1, .error (.provider "no such page"))
  CreateRecord := fun s _ => (s + 1, none)
  DeleteRecord := fun s _ => (s + 1, none)

/-- An SRV record of the examples: priority 5, weight 10, port 5060.  Its
`MxPreference` is set apart from its priority. -/
def exampleSrv : RecordConfig :=
  { RecordConfig.zero with
    Type_ := "SRV", NameFQDN := "_sip._tcp.example.com", Target := "sip.example.com.",
    TTL := 300, MxPreference := 99, SrvPriority := 5, SrvWeight := 10, SrvPort := 5060 }

/-- An MX record of the examples, preference 10. -/
def exampleMx : RecordConfig :=
  { RecordConfig.zero with
    Type_ := "MX", NameFQDN := "example.com", Target := "mail.example.com.",
    TTL := 300, MxPreference := 10, SrvPriority := 7 }

/-- A TXT record of the examples, with the two segments `hello` and `world`. -/
def exampleTxt : RecordConfig :=
  { RecordConfig.zero with
    Type_ := "TXT", NameFQDN := "example.com", Target := "hello", TTL := 300,
    TxtStrings := ["hello", "world"] }

/-- The fetched records of the example provider, as `toRecord` turns them into
records. -/
def exampleActual : List RecordConfig :=
  match toRecords exampleDeps "example.com"
      [exampleWire 11 "CNAME" "www.example.com." "example.org.",
        exampleWire 12 "A" "example.com." "1.2.3.4",
        exampleWire 13 "MX" "example.com." "mail.example.org."] with
  | .returned actual => actual
  | .panicked _ => []

/-- A differ result of the examples: every fetched record is deleted, every
declared record is created, and every fetched record is also replaced by the
first declared one. -/
def exampleDiff (dc : DomainConfig) (actual : List RecordConfig) : DiffResult :=
  { create := dc.Records.map (fun r => ⟨none, some r⟩),
    del := actual.map (fun a => ⟨some a, none⟩),
    mod := actual.map (fun a => ⟨some a, dc.Records.head?⟩) }

/-- The stand-ins with the differ `exampleDiff`. -/
def exampleFullDeps : Deps :=
  { exampleDeps with IncrementalDiff := fun dc actual => .returned (exampleDiff dc actual) }

/-- The corrections `GetDomainCorrections` returns for the example zone at the
example provider with the differ `exampleDiff`. -/
def exampleFullCorrections : List (Correction Nat) :=
  match GetDomainCorrections exampleFullDeps (NameCom.mk (exampleClient 0)) 5 exampleZone
      ⟨0, []⟩ with
  | some ⟨_, _, .returned (cs, _)⟩ => cs
  | _ => []

/-- A declared CAA record, as `SetTargetCAA` builds it. -/
def exampleCaa : RecordConfig :=
  (SetTargetCAA { RecordConfig.zero with NameFQDN := "example.com", TTL := 300 } 0 "issue"
    "letsencrypt.org").rc

/-- A declared zone that holds the CAA record only. -/
def exampleCaaZone : DomainConfig :=
  { Name := "example.com", Records := [exampleCaa] }

/-- A provider that publishes one record, a CAA record at the apex with another
value than the declared one.  Its creates and deletes succeed. -/
def caaClient : Client Nat where
  ListRecords := fun s req =>
    if req.Page = 1 then
      (s + 1, .ok ⟨[exampleWire 41 "CAA" "example.com." "0 issue \"old-ca.example\""], 0⟩)
    else (s + 1, .error (.provider "no such page"))
  CreateRecord := fun s _ => (s + 1, none)
  DeleteRecord := fun s _ => (s + 1, none)

/-- The record fetched from `caaClient`, as `toRecord` turns it into a record. -/
def exampleCaaActual : List RecordConfig :=
  match toRecords exampleDeps "example.com"
      [exampleWire 41 "CAA" "example.com." "0 issue \"old-ca.example\""] with
  | .returned actual => actual
  | .panicked _ => []

/-- The corrections for the zone with the CAA record at `caaClient`, when the
fetched CAA record is to be replaced by the declared one. -/
def exampleCaaReplacements : List (Correction Nat) :=
  match GetDomainCorrections exampleReplaceDeps (NameCom.mk caaClient) 5 exampleCaaZone
      ⟨0, []⟩ with
  | some ⟨_, _, .returned (cs, _)⟩ => cs
  | _ => []

/-- The corrections for the zone with the CAA record with the differ
`exampleDiff`. -/
def exampleCaaCorrections : List (Correction Nat) :=
  match GetDomainCorrections exampleFullDeps (NameCom.mk (exampleClient 0)) 5 exampleCaaZone
      ⟨0, []⟩ with
  | some ⟨_, _, .returned (cs, _)⟩ => cs
  | _ => []

/-! ## Lemmas on the standard library models -/

theorem foldl_digits_ge (cs : List Char) (n : Nat) :
    n ≤ cs.foldl (fun n c => 10 * n + (c.toNat - 48)) n := by
  induction cs generalizing n with
  | nil => simp
  | cons c cs ih =>
    simp only [List.foldl_cons]
    exact le_trans (by omega) (ih _)

theorem parseUintLoop_ok_of_digits (maxVal : Nat) (hmax : maxVal < (2 ^ 64 - 1) / 10 + 1)
    (cs : List Char) (n : Nat) (hd : ∀ c ∈ cs, isDecimalDigit c = true)
    (hv : cs.foldl (fun n c => 10 * n + (c.toNat - 48)) n ≤ maxVal) :
    parseUintLoop maxVal cs n = .ok (cs.foldl (fun n c => 10 * n + (c.toNat - 48)) n) := by
  induction cs generalizing n with
  | nil => simp [parseUintLoop]
  | cons c cs ih =>
    have hc : 48 ≤ c.toNat ∧ c.toNat ≤ 57 := by
      have := hd c (List.mem_cons_self _ _)
      simpa [isDecimalDigit] using this
    simp only [List.foldl_cons] at hv ⊢
    have hge := foldl_digits_ge cs (10 * n + (c.toNat - 48))
    have h1 : ¬ (n ≥ (2 ^ 64 - 1) / 10 + 1) := by omega
    have h2 : ¬ (n * 10 + (c.toNat - 48) > maxVal) := by omega
    rw [parseUintLoop, if_pos hc, if_neg h1]
    simp only [h2, if_false]
    rw [Nat.mul_comm n 10]
    exact ih _ (fun c hc => hd c (List.mem_cons_of_mem _ hc)) hv

theorem parseUintLoop_ok_inv (maxVal : Nat) (cs : List Char) (n v : Nat) (hn : n ≤ maxVal)
    (h : parseUintLoop maxVal cs n = .ok v) :
    (∀ c ∈ cs, isDecimalDigit c = true) ∧
      v = cs.foldl (fun n c => 10 * n + (c.toNat - 48)) n ∧ v ≤ maxVal := by
  induction cs generalizing n with
  | nil =>
    simp only [parseUintLoop, Except.ok.injEq] at h
    subst h
    simp [hn]
  | cons c cs ih =>
    rw [parseUintLoop] at h
    split at h
    · rename_i hc
      split at h
      · cases h
      · simp only at h
        split at h
        · cases h
        · rename_i h2
          have := ih (n * 10 + (c.toNat - 48)) (by omega) h
          refine ⟨?_, ?_, this.2.2⟩
          · intro x hx
            rcases List.mem_cons.1 hx with rfl | hx
            · simpa [isDecimalDigit] using hc
            · exact this.1 x hx
          · simp only [List.foldl_cons]
            rw [Nat.mul_comm 10 n]
            exact this.2.1
    · cases h

/-- Go `ParseUint(s, 10, 8)` succeeds exactly on the decimal numerals of value at
most 255, and gives the value. -/
theorem ParseUint_8_ok_iff (s : String) (v : Nat) :
    ParseUint s 8 = .ok v ↔
      (isDecimalNumeral s = true ∧ numeralValue s = v ∧ v ≤ 255) := by
  constructor
  · intro h
    unfold ParseUint at h
    split at h
    · cases h
    · rename_i hne
      split at h
      · rename_i n hn
        cases h
        have := parseUintLoop_ok_inv _ s.data 0 v (by norm_num) hn
        refine ⟨?_, this.2.1.symm, by simpa using this.2.2⟩
        simp only [isDecimalNumeral, Bool.and_eq_true, Bool.not_eq_true', List.all_eq_true]
        exact ⟨by simpa using hne, this.1⟩
      · cases h
  · rintro ⟨hnum, hval, hle⟩
    simp only [isDecimalNumeral, Bool.and_eq_true, Bool.not_eq_true', List.all_eq_true,
      List.isEmpty_eq_false] at hnum
    unfold ParseUint
    have hne : ¬ s.data = [] := by simpa using hnum.1
    rw [if_neg hne]
    have := parseUintLoop_ok_of_digits (2 ^ 8 - 1) (by norm_num) s.data 0 hnum.2
      (by unfold numeralValue at hval; rw [hval]; simpa using hle)
    rw [this]
    simp only [numeralValue] at hval
    rw [hval]

/-- Go `ParseUint(s, 10, 8)` fails on every other string. -/
theorem ParseUint_8_error (s : String)
    (h : ¬ (isDecimalNumeral s = true ∧ numeralValue s ≤ 255)) :
    ∃ err, ParseUint s 8 = .error err := by
  cases hp : ParseUint s 8 with
  | error err => exact ⟨err, rfl⟩
  | ok v =>
    have := (ParseUint_8_ok_iff s v).1 hp
    exact absurd ⟨this.1, by rw [this.2.1]; exact this.2.2⟩ h

theorem fieldsAux_run (a : List Char) (ha : ∀ c ∈ a, isSpace c = false) (rest cur : List Char) :
    fieldsAux (a ++ rest) cur = fieldsAux rest (a.reverse ++ cur) := by
  induction a generalizing cur with
  | nil => simp
  | cons c a ih =>
    have hc : isSpace c = false := ha c (List.mem_cons_self _ _)
    rw [List.cons_append, fieldsAux]
    simp only [hc, Bool.false_eq_true, if_false]
    rw [ih (fun x hx => ha x (List.mem_cons_of_mem _ hx))]
    simp

/-- A non-empty run without spaces that is followed by a space is the first field. -/
theorem fieldsAux_field_space (a : List Char) (ha : ∀ c ∈ a, isSpace c = false) (hne : a ≠ [])
    (sp : Char) (hsp : isSpace sp = true) (rest : List Char) :
    fieldsAux (a ++ sp :: rest) [] = a :: fieldsAux rest [] := by
  rw [fieldsAux_run a ha, fieldsAux]
  simp [hsp, hne]

/-- A non-empty run without spaces that ends the string is the last field. -/
theorem fieldsAux_field_end (a : List Char) (ha : ∀ c ∈ a, isSpace c = false) (hne : a ≠ []) :
    fieldsAux a [] = [a] := by
  have := fieldsAux_run a ha [] []
  rw [List.append_nil] at this
  rw [this, fieldsAux]
  simp [hne]

/-- Three non-empty words without spaces, joined by single blanks, are the three fields. -/
theorem Fields_three (a b c : String)
    (ha : ∀ x ∈ a.data, isSpace x = false) (hb : ∀ x ∈ b.data, isSpace x = false)
    (hc : ∀ x ∈ c.data, isSpace x = false)
    (hane : a.data ≠ []) (hbne : b.data ≠ []) (hcne : c.data ≠ []) :
    Fields (a ++ " " ++ b ++ " " ++ c) = [a, b, c] := by
  have hsp : isSpace ' ' = true := by decide
  have hdata : (a ++ " " ++ b ++ " " ++ c).data = a.data ++ ' ' :: (b.data ++ ' ' :: c.data) := by
    simp [String.data_append]
  unfold Fields
  rw [hdata, fieldsAux_field_space a.data ha hane ' ' hsp,
    fieldsAux_field_space b.data hb hbne ' ' hsp, fieldsAux_field_end c.data hc hcne]
  rfl

theorem isSpace_false_of_digit (c : Char) (h : isDecimalDigit c = true) : isSpace c = false := by
  simp only [isDecimalDigit, Bool.and_eq_true, decide_eq_true_eq] at h
  simp only [isSpace, Bool.or_eq_false_iff, Bool.and_eq_false_imp, decide_eq_true_eq,
    decide_eq_false_iff_not, beq_eq_false_iff_ne, ne_eq]
  omega

theorem StripQuotes_quoted (t : String) :
    StripQuotes ("\"" ++ t ++ "\"") = t := by
  have hdata : ("\"" ++ t ++ "\"").data = dquote :: (t.data ++ [dquote]) := by
    simp [String.data_append, dquote]
  unfold StripQuotes
  rw [hdata]
  simp [dquote]

theorem StripQuotes_plain (t : String) (h : ∀ x ∈ t.data, x ≠ dquote) : StripQuotes t = t := by
  unfold StripQuotes
  split
  · rename_i c rest hd
    have : c ≠ dquote := h c (by rw [hd]; exact List.mem_cons_self _ _)
    have hc : ¬ (c = Char.ofNat 34 ∧ rest.getLast? = some (Char.ofNat 34)) := fun hh => this hh.1
    rw [if_neg hc]
  · rfl

theorem SetTargetCAA_ok (rc : RecordConfig) (flag : Nat) (tag target : String)
    (hT : rc.Type_ = "" ∨ rc.Type_ = "CAA") :
    SetTargetCAA rc flag tag target = ⟨caaRecord rc flag tag target, .returned none⟩ := by
  unfold SetTargetCAA caaRecord
  rcases hT with h | h
  · simp [h]
  · simp [h]

theorem SetTargetCAAStrings_ok (rc : RecordConfig) (flag tag target : String)
    (hT : rc.Type_ = "" ∨ rc.Type_ = "CAA")
    (hf : isDecimalNumeral flag = true) (hn : numeralValue flag ≤ 255) :
    SetTargetCAAStrings rc flag tag target =
      ⟨caaRecord rc (numeralValue flag) tag target, .returned none⟩ := by
  have hp := (ParseUint_8_ok_iff flag (numeralValue flag)).2 ⟨hf, rfl, hn⟩
  unfold SetTargetCAAStrings
  rw [hp]
  simp only
  rw [Nat.mod_eq_of_lt (by omega), SetTargetCAA_ok rc _ tag target hT]

/-! ## Theorems on `models/t_caa.go` -/

/-- C1: on a record whose type is empty or CAA, the combined string made of a
decimal numeral `f` of value `n ≤ 255`, a blank, a tag, a blank and the target
in double quotes is accepted: no error, and the record has type CAA, flag `n`,
the tag, and the target without its quotes, every other field as before.  The
same holds when the target is given without quotes.  Tag and target are
non-empty and have neither white space nor a double quote. -/
theorem SetTargetCAAString_accepts (rc : RecordConfig) (f tag target : String) (n : Nat)
    (hT : rc.Type_ = "" ∨ rc.Type_ = "CAA")
    (hf : isDecimalNumeral f = true) (hv : numeralValue f = n) (hn : n ≤ 255)
    (htag : tag.data ≠ []) (htarget : target.data ≠ [])
    (htagc : ∀ c ∈ tag.data, isSpace c = false ∧ c ≠ dquote)
    (htargetc : ∀ c ∈ target.data, isSpace c = false ∧ c ≠ dquote) :
    SetTargetCAAString rc (f ++ " " ++ tag ++ " \"" ++ target ++ "\"") =
        ⟨caaRecord rc n tag target, .returned none⟩ ∧
      SetTargetCAAString rc (f ++ " " ++ tag ++ " " ++ target) =
        ⟨caaRecord rc n tag target, .returned none⟩ := by
  have hstr : f ++ " " ++ tag ++ " \"" ++ target ++ "\"" =
      f ++ " " ++ tag ++ " " ++ ("\"" ++ target ++ "\"") := by
    apply String.ext
    simp [String.data_append]
  rw [hstr]
  have hnum := hf
  simp only [isDecimalNumeral, Bool.and_eq_true, Bool.not_eq_true', List.all_eq_true,
    List.isEmpty_eq_false] at hf
  have hfne : f.data ≠ [] := hf.1
  have hfs : ∀ x ∈ f.data, isSpace x = false := fun x hx => isSpace_false_of_digit x (hf.2 x hx)
  have hqd : ("\"" ++ target ++ "\"").data = dquote :: (target.data ++ [dquote]) := by
    simp [String.data_append, dquote]
  have hq : ∀ x ∈ ("\"" ++ target ++ "\"").data, isSpace x = false := by
    intro x hx
    rw [hqd] at hx
    have hdq : isSpace dquote = false := by decide
    rcases List.mem_cons.1 hx with rfl | hx
    · exact hdq
    · rcases List.mem_append.1 hx with hx | hx
      · exact (htargetc x hx).1
      · rw [List.mem_singleton.1 hx]
        exact hdq
  have hqne : ("\"" ++ target ++ "\"").data ≠ [] := by
    rw [hqd]
    exact List.cons_ne_nil _ _
  constructor
  · unfold SetTargetCAAString
    rw [Fields_three f tag _ hfs (fun x hx => (htagc x hx).1) hq hfne htag hqne]
    simp only
    rw [StripQuotes_quoted, SetTargetCAAStrings_ok rc f tag target hT hnum (by omega), hv]
  · unfold SetTargetCAAString
    rw [Fields_three f tag target hfs (fun x hx => (htagc x hx).1)
      (fun x hx => (htargetc x hx).1) hfne htag htarget]
    simp only
    rw [StripQuotes_plain target (fun x hx => (htargetc x hx).2),
      SetTargetCAAStrings_ok rc f tag target hT hnum (by omega), hv]

/-- Witness of C1: the string of the source's comment, on a fresh record. -/
theorem SetTargetCAAString_accepts_witness :
    SetTargetCAAString RecordConfig.zero "0 issue \"letsencrypt.org\"" =
        ⟨caaRecord RecordConfig.zero 0 "issue" "letsencrypt.org", .returned none⟩ ∧
      SetTargetCAAString RecordConfig.zero "0 issue letsencrypt.org" =
        ⟨caaRecord RecordConfig.zero 0 "issue" "letsencrypt.org", .returned none⟩ :=
  SetTargetCAAString_accepts RecordConfig.zero "0" "issue" "letsencrypt.org" 0
    (Or.inl rfl) (by decide) (by decide) (by decide) (by decide) (by decide)
    (by decide) (by decide)

/-- C2: when the string does not split into exactly three white-space separated
fields, `SetTargetCAAString` returns an error (it does not panic) and the record
is exactly as before the call, whatever its type. -/
theorem SetTargetCAAString_rejects (rc : RecordConfig) (s : String)
    (h : (Fields s).length ≠ 3) :
    SetTargetCAAString rc s =
      ⟨rc, .returned (some (.errorf "CAA value does not contain 3 fields: (%#v)" [s]))⟩ := by
  unfold SetTargetCAAString
  split
  · rename_i p0 p1 p2 hp
    rw [hp] at h
    exact absurd rfl h
  · rfl

/-- Witness of C2: two fields only, on a record of another type. -/
theorem SetTargetCAAString_rejects_witness :
    SetTargetCAAString { RecordConfig.zero with Type_ := "A", Target := "1.2.3.4" } "0 issue" =
      ⟨{ RecordConfig.zero with Type_ := "A", Target := "1.2.3.4" },
        .returned (some (.errorf "CAA value does not contain 3 fields: (%#v)" ["0 issue"]))⟩ :=
  SetTargetCAAString_rejects _ "0 issue" (by decide)

/-- C3: a flag string that is not a decimal numeral of value at most 255 makes
`SetTargetCAAStrings` return an error, without a panic and with the record
unchanged, whatever the record's type; a flag string that is such a numeral, of
value `n`, makes it behave exactly as `SetTargetCAA` with flag `n`. -/
theorem SetTargetCAAStrings_flag (rc : RecordConfig) (flag tag target : String) :
    (¬ (isDecimalNumeral flag = true ∧ numeralValue flag ≤ 255) →
        ∃ err, SetTargetCAAStrings rc flag tag target = ⟨rc, .returned (some err)⟩) ∧
      (isDecimalNumeral flag = true → numeralValue flag ≤ 255 →
        SetTargetCAAStrings rc flag tag target =
          SetTargetCAA rc (numeralValue flag) tag target) := by
  constructor
  · intro h
    obtain ⟨err, herr⟩ := ParseUint_8_error flag h
    unfold SetTargetCAAStrings
    rw [herr]
    exact ⟨_, rfl⟩
  · intro hf hn
    have hp := (ParseUint_8_ok_iff flag (numeralValue flag)).2 ⟨hf, rfl, hn⟩
    unfold SetTargetCAAStrings
    rw [hp]
    simp only
    rw [Nat.mod_eq_of_lt (by omega)]

/-- Witness of C3: the flags `256`, `-1`, the empty flag and `0x1` are refused
on a record of type A, and the flag `128` is passed on. -/
theorem SetTargetCAAStrings_flag_witness :
    (∃ err, SetTargetCAAStrings { RecordConfig.zero with Type_ := "A" } "256" "issue" "ca.example" =
        ⟨{ RecordConfig.zero with Type_ := "A" }, .returned (some err)⟩) ∧
      (∃ err, SetTargetCAAStrings { RecordConfig.zero with Type_ := "A" } "-1" "issue" "ca.example" =
        ⟨{ RecordConfig.zero with Type_ := "A" }, .returned (some err)⟩) ∧
      (∃ err, SetTargetCAAStrings { RecordConfig.zero with Type_ := "A" } "" "issue" "ca.example" =
        ⟨{ RecordConfig.zero with Type_ := "A" }, .returned (some err)⟩) ∧
      (∃ err, SetTargetCAAStrings { RecordConfig.zero with Type_ := "A" } "0x1" "issue" "ca.example" =
        ⟨{ RecordConfig.zero with Type_ := "A" }, .returned (some err)⟩) ∧
      SetTargetCAAStrings RecordConfig.zero "128" "issue" "ca.example" =
        SetTargetCAA RecordConfig.zero 128 "issue" "ca.example" :=
  ⟨(SetTargetCAAStrings_flag _ "256" _ _).1 (by decide),
    (SetTargetCAAStrings_flag _ "-1" _ _).1 (by decide),
    (SetTargetCAAStrings_flag _ "" _ _).1 (by decide),
    (SetTargetCAAStrings_flag _ "0x1" _ _).1 (by decide),
    (SetTargetCAAStrings_flag _ "128" _ _).2 (by decide) (by decide)⟩

/-- C4: `SetTargetCAA` panics exactly when the record's type before the call is
neither empty nor CAA; otherwise it returns no error and leaves the record with
type CAA, the given flag, tag and target, and every other field as before.  The
tag is any string. -/
theorem SetTargetCAA_panics_iff (rc : RecordConfig) (flag : Nat) (tag target : String) :
    ((∃ v, (SetTargetCAA rc flag tag target).out = .panicked v) ↔
        (rc.Type_ ≠ "" ∧ rc.Type_ ≠ "CAA")) ∧
      (¬ (rc.Type_ ≠ "" ∧ rc.Type_ ≠ "CAA") →
        SetTargetCAA rc flag tag target = ⟨caaRecord rc flag tag target, .returned none⟩) := by
  by_cases h1 : rc.Type_ = ""
  · refine ⟨?_, fun _ => SetTargetCAA_ok rc flag tag target (Or.inl h1)⟩
    rw [SetTargetCAA_ok rc flag tag target (Or.inl h1)]
    simp [h1]
  · by_cases h2 : rc.Type_ = "CAA"
    · refine ⟨?_, fun _ => SetTargetCAA_ok rc flag tag target (Or.inr h2)⟩
      rw [SetTargetCAA_ok rc flag tag target (Or.inr h2)]
      simp [h2]
    · refine ⟨?_, fun h => absurd ⟨h1, h2⟩ h⟩
      unfold SetTargetCAA
      simp [h1, h2]

/-- Witness of C4: a fresh record and a CAA record are filled in, with a tag
outside issue, issuewild and iodef; a record of type A makes the call panic. -/
theorem SetTargetCAA_panics_iff_witness :
    SetTargetCAA RecordConfig.zero 7 "anytag" "ca.example" =
        ⟨caaRecord RecordConfig.zero 7 "anytag" "ca.example", .returned none⟩ ∧
      SetTargetCAA { RecordConfig.zero with Type_ := "CAA", TTL := 300 } 255 "" "" =
        ⟨caaRecord { RecordConfig.zero with Type_ := "CAA", TTL := 300 } 255 "" "",
          .returned none⟩ ∧
      (∃ v, (SetTargetCAA { RecordConfig.zero with Type_ := "A" } 0 "issue" "ca.example").out =
        .panicked v) :=
  ⟨(SetTargetCAA_panics_iff RecordConfig.zero 7 "anytag" "ca.example").2 (by decide),
    (SetTargetCAA_panics_iff _ 255 "" "").2 (by decide),
    (SetTargetCAA_panics_iff { RecordConfig.zero with Type_ := "A" } 0 "issue" "ca.example").1.2
      (by decide)⟩

/-! ## Theorems on `checkNSModifications` and the declared side -/

theorem checkNSLoop_eq (name : String) (l acc : List RecordConfig) :
    checkNSLoop name l acc = acc ++ l.filter (fun r => !isApexNS name r) := by
  induction l generalizing acc with
  | nil => simp [checkNSLoop]
  | cons r l ih =>
    rw [checkNSLoop]
    by_cases h : r.Type_ = "NS" ∧ r.NameFQDN = name
    · have hp : isApexNS name r = true := by simp [isApexNS, h.1, h.2]
      rw [if_pos h, ih, List.filter_cons]
      simp [hp]
    · have hp : isApexNS name r = false := by
        simp only [isApexNS, Bool.and_eq_false_imp, beq_iff_eq, beq_eq_false_iff_ne, ne_eq]
        exact fun h1 h2 => h ⟨h1, h2⟩
      rw [if_neg h, ih, List.filter_cons]
      simp [hp]

theorem checkNSModifications_records (dc : DomainConfig) :
    (checkNSModifications dc).Records = dc.Records.filter (fun r => !isApexNS dc.Name r) := by
  simp [checkNSModifications, checkNSLoop_eq]

/-- C5: `checkNSModifications` replaces `dc.Records` by the sublist, in the same
order, of the records that are not apex NS records.  Afterwards no record of the
list is an NS record owned by the zone name, every other record occurs as often
as before, and `dc.Name` is unchanged. -/
theorem checkNSModifications_removes_apex_ns (dc : DomainConfig) :
    (checkNSModifications dc).Records =
        dc.Records.filter (fun r => !isApexNS dc.Name r) ∧
      List.Sublist (checkNSModifications dc).Records dc.Records ∧
      (∀ r ∈ (checkNSModifications dc).Records, ¬ (r.Type_ = "NS" ∧ r.NameFQDN = dc.Name)) ∧
      (∀ r, ¬ (r.Type_ = "NS" ∧ r.NameFQDN = dc.Name) →
        (checkNSModifications dc).Records.count r = dc.Records.count r) ∧
      (checkNSModifications dc).Name = dc.Name := by
  refine ⟨checkNSModifications_records dc, ?_, ?_, ?_, rfl⟩
  · rw [checkNSModifications_records]
    exact List.filter_sublist _
  · intro r hr
    rw [checkNSModifications_records, List.mem_filter] at hr
    intro h
    have hp : isApexNS dc.Name r = true := by simp [isApexNS, h.1, h.2]
    simp [hp] at hr
  · intro r hr
    rw [checkNSModifications_records]
    apply List.count_filter
    simp only [isApexNS, Bool.not_eq_true', Bool.and_eq_false_imp, beq_iff_eq,
      beq_eq_false_iff_ne, ne_eq]
    exact fun h1 h2 => hr ⟨h1, h2⟩

/-- Witness of C5: in the example zone the A record that occurs twice is still
there twice. -/
theorem checkNSModifications_removes_apex_ns_witness :
    (checkNSModifications exampleZone).Records.count (exampleRecord "A" "www.example.com" "1.2.3.4") =
      exampleZone.Records.count (exampleRecord "A" "www.example.com" "1.2.3.4") :=
  (checkNSModifications_removes_apex_ns exampleZone).2.2.2.1 _ (by decide)

theorem rewriteAlias_eq (r : RecordConfig) : rewriteAlias r = aliasToAname r := by
  unfold rewriteAlias aliasToAname
  split
  · rfl
  · rfl

theorem normalizeDeclared_records (dc : DomainConfig) :
    (normalizeDeclared dc).Records =
      (dc.Records.map aliasToAname).filter (fun r => !isApexNS dc.Name r) := by
  have h : rewriteAlias = aliasToAname := funext rewriteAlias_eq
  simp [normalizeDeclared, checkNSModifications_records, h]

theorem aliasToAname_ne_alias (r : RecordConfig) : (aliasToAname r).Type_ ≠ "ALIAS" := by
  unfold aliasToAname
  by_cases h : r.Type_ = "ALIAS"
  · simp [h]
  · simp [h]

/-- C6: in `GetDomainCorrections` the declared records handed to the differ are
the declared records (as `dc.Punycode()` left them when the alias loop starts)
with every ALIAS record's type changed to ANAME and nothing else changed, same
order, and with the apex NS records then removed.  That list holds no record of
type ALIAS.  The call consults the differ on that domain configuration only, and
when it returns corrections that list is what `dc.Records` holds. -/
theorem GetDomainCorrections_declared_side (d : Deps) (n : NameCom σ) (fuel : Nat)
    (dc : DomainConfig) (w : World σ) :
    (normalizeDeclared (d.Punycode dc)).Records =
        ((d.Punycode dc).Records.map aliasToAname).filter
          (fun r => !isApexNS (d.Punycode dc).Name r) ∧
      (∀ r ∈ (normalizeDeclared (d.Punycode dc)).Records, r.Type_ ≠ "ALIAS") ∧
      (∀ f : DomainConfig → List RecordConfig → Outcome DiffResult,
        (∀ actual, f (normalizeDeclared (d.Punycode dc)) actual =
          d.IncrementalDiff (normalizeDeclared (d.Punycode dc)) actual) →
        GetDomainCorrections { d with IncrementalDiff := f } n fuel dc w =
          GetDomainCorrections d n fuel dc w) ∧
      (∀ res cs, GetDomainCorrections d n fuel dc w = some res →
        res.out = .returned (cs, none) → res.dc = normalizeDeclared (d.Punycode dc)) := by
  refine ⟨normalizeDeclared_records _, ?_, ?_, ?_⟩
  · intro r hr
    rw [normalizeDeclared_records, List.mem_filter, List.mem_map] at hr
    obtain ⟨⟨a, _, rfl⟩, _⟩ := hr
    exact aliasToAname_ne_alias a
  · intro f hf
    have ht : ∀ origin records,
        toRecords { d with IncrementalDiff := f } origin records = toRecords d origin records := by
      intro origin records
      induction records with
      | nil => rfl
      | cons r rest ih =>
        simp only [toRecords, ih]
        rfl
    have hb : ∀ domain (r : DiffResult),
        (buildCorrections { d with IncrementalDiff := f } n domain r) =
          buildCorrections d n domain r := by
      intro domain r
      have h1 : ∀ l acc, delLoop { d with IncrementalDiff := f } n domain l acc =
          delLoop d n domain l acc := by
        intro l
        induction l with
        | nil => intro acc; rfl
        | cons e rest ih =>
          intro acc
          simp only [delLoop]
          split
          · rfl
          · exact ih _
      have h2 : ∀ l acc, createLoop { d with IncrementalDiff := f } n domain l acc =
          createLoop d n domain l acc := by
        intro l
        induction l with
        | nil => intro acc; rfl
        | cons e rest ih =>
          intro acc
          simp only [createLoop]
          exact ih _
      have h3 : ∀ l acc, modLoop { d with IncrementalDiff := f } n domain l acc =
          modLoop d n domain l acc := by
        intro l
        induction l with
        | nil => intro acc; rfl
        | cons e rest ih =>
          intro acc
          simp only [modLoop]
          split
          · rfl
          · exact ih _
      simp only [buildCorrections, h1, h2, h3]
    simp only [GetDomainCorrections, ht, hb, hf]
  · intro res cs hres hout
    simp only [GetDomainCorrections] at hres
    split at hres
    · cases hres
    · cases hres
      cases hout
    · split at hres
      · cases hres
        cases hout
      · split at hres
        · cases hres
          cases hout
        · split at hres
          · cases hres
            cases hout
          · cases hres
            rfl

/-- Witness of C6: the example zone, whose ALIAS record comes out as ANAME and
whose apex NS record is gone. -/
theorem GetDomainCorrections_declared_side_witness :
    (normalizeDeclared (exampleDeps.Punycode exampleZone)).Records =
        [exampleRecord "ANAME" "example.com" "example.org.",
          exampleRecord "A" "www.example.com" "1.2.3.4",
          exampleRecord "NS" "sub.example.com" "ns.example.net.",
          exampleRecord "A" "www.example.com" "1.2.3.4"] ∧
      GetDomainCorrections { exampleDeps with IncrementalDiff := exampleDeps.IncrementalDiff }
          (NameCom.mk (exampleClient 0)) 5 exampleZone ⟨0, []⟩ =
        GetDomainCorrections exampleDeps (NameCom.mk (exampleClient 0)) 5 exampleZone ⟨0, []⟩ :=
  ⟨by decide,
    (GetDomainCorrections_declared_side exampleDeps (NameCom.mk (exampleClient 0)) 5
      exampleZone ⟨0, []⟩).2.2.1 exampleDeps.IncrementalDiff (fun _ => rfl)⟩

/-! ## Theorems on the corrections of `GetDomainCorrections` -/

theorem existingOriginal_returned (e : Correlation) (old : NamecomRecord)
    (h : existingOriginal e = .returned old) :
    ∃ ex, e.Existing = some ex ∧ ex.Original = some old := by
  unfold existingOriginal at h
  split at h
  · cases h
  · rename_i ex hex
    split at h
    · cases h
    · rename_i rec hrec
      cases h
      exact ⟨ex, hex, hrec⟩

/-- A call that returns corrections went through the fetch, the conversion of
the fetched records, the differ and the three loops, none of which panicked. -/
theorem GetDomainCorrections_returned_inv (d : Deps) (n : NameCom σ) (fuel : Nat)
    (dc : DomainConfig) (w : World σ) (res : GdcExec σ) (cs : List (Correction σ))
    (hres : GetDomainCorrections d n fuel dc w = some res)
    (hout : res.out = .returned (cs, none)) :
    ∃ records actual r,
      getRecords n fuel (d.Punycode dc).Name w = some (res.world, (records, none)) ∧
      toRecords d (d.Punycode dc).Name records = .returned actual ∧
      d.IncrementalDiff (normalizeDeclared (d.Punycode dc)) (d.PostProcessRecords actual) =
        .returned r ∧
      buildCorrections d n (d.Punycode dc).Name r = .returned cs := by
  simp only [GetDomainCorrections] at hres
  split at hres
  · cases hres
  · cases hres
    cases hout
  · rename_i w1 records hget
    split at hres
    · cases hres
      cases hout
    · rename_i actual hact
      split at hres
      · cases hres
        cases hout
      · rename_i r hdiff
        split at hres
        · cases hres
          cases hout
        · rename_i cs1 hbuild
          cases hres
          cases hout
          exact ⟨records, actual, r, hget, hact, hdiff, hbuild⟩

theorem modLoop_returned (d : Deps) (n : NameCom σ) (domain : String)
    (mods : List Correlation) (acc cs : List (Correction σ))
    (h : modLoop d n domain mods acc = .returned cs) :
    (∀ c ∈ acc, c ∈ cs) ∧
      ∀ chng ∈ mods, ∃ old c, existingOriginal chng = .returned old ∧ c ∈ cs ∧
        c.Msg = d.CorrelationString chng ∧ c.F = modAction d n old chng.Desired domain := by
  induction mods generalizing acc with
  | nil =>
    simp only [modLoop, Outcome.returned.injEq] at h
    subst h
    exact ⟨fun c hc => hc, fun chng hc => absurd hc (List.not_mem_nil _)⟩
  | cons e rest ih =>
    rw [modLoop] at h
    split at h
    · cases h
    · rename_i old hold
      obtain ⟨h1, h2⟩ := ih _ h
      refine ⟨fun c hc => h1 c (List.mem_append_left _ hc), ?_⟩
      intro chng hc
      rcases List.mem_cons.1 hc with rfl | hc
      · exact ⟨old, _, hold, h1 _ (List.mem_append_right _ (List.mem_singleton_self _)),
          rfl, rfl⟩
      · exact h2 chng hc

theorem buildCorrections_mod (d : Deps) (n : NameCom σ) (domain : String) (r : DiffResult)
    (cs : List (Correction σ)) (h : buildCorrections d n domain r = .returned cs) :
    ∀ chng ∈ r.mod, ∃ old c, existingOriginal chng = .returned old ∧ c ∈ cs ∧
      c.Msg = d.CorrelationString chng ∧ c.F = modAction d n old chng.Desired domain := by
  unfold buildCorrections at h
  split at h
  · cases h
  · split at h
    · cases h
    · exact (modLoop_returned d n domain r.mod _ cs h).2

theorem modAction_delete_failed (d : Deps) (n : NameCom σ) (old : NamecomRecord)
    (new : Option RecordConfig) (domain : String) (w : World σ) (err : GoError)
    (h : (deleteRecord n old.ID domain w).2 = some err) :
    modAction d n old new domain w = ((deleteRecord n old.ID domain w).1, .returned (some err)) := by
  unfold modAction
  split
  · rename_i w1 e he
    rw [he] at h
    cases h
    rw [he]
  · rename_i w1 he
    rw [he] at h
    cases h

theorem modAction_delete_ok (d : Deps) (n : NameCom σ) (old : NamecomRecord)
    (new : Option RecordConfig) (domain : String) (w : World σ)
    (h : (deleteRecord n old.ID domain w).2 = none) :
    modAction d n old new domain w =
      createRecordPtr d n new domain (deleteRecord n old.ID domain w).1 := by
  unfold modAction
  split
  · rename_i w1 e he
    rw [he] at h
    cases h
  · rename_i w1 he
    rw [he]

/-! ## Theorems on `getRecords` -/

theorem getRecordsLoop_stop (n : NameCom σ) (domain : String) (fuel : Nat) (w : World σ)
    (page : Int) (records : List NamecomRecord) (h : ¬ page > 0) :
    getRecordsLoop n domain fuel w page records = some (w, .ok records) := by
  cases fuel <;> simp [getRecordsLoop, h]

theorem getRecordsLoop_zero (n : NameCom σ) (domain : String) (w : World σ)
    (page : Int) (records : List NamecomRecord) (h : page > 0) :
    getRecordsLoop n domain 0 w page records = none := by
  simp [getRecordsLoop, h]

theorem getRecordsLoop_step_ok (n : NameCom σ) (domain : String) (fuel : Nat) (w : World σ)
    (page : Int) (records : List NamecomRecord) (r : ListRecordsResponse) (h : page > 0)
    (hr : (n.client.ListRecords w.st ⟨domain, page⟩).2 = .ok r) :
    getRecordsLoop n domain (fuel + 1) w page records =
      getRecordsLoop n domain fuel
        ⟨(n.client.ListRecords w.st ⟨domain, page⟩).1, w.sent ++ [.list ⟨domain, page⟩]⟩
        r.NextPage (records ++ r.Records) := by
  rw [getRecordsLoop, if_pos h]
  simp only [sendList, hr]

theorem getRecordsLoop_step_error (n : NameCom σ) (domain : String) (fuel : Nat) (w : World σ)
    (page : Int) (records : List NamecomRecord) (e : GoError) (h : page > 0)
    (hr : (n.client.ListRecords w.st ⟨domain, page⟩).2 = .error e) :
    getRecordsLoop n domain (fuel + 1) w page records =
      some (⟨(n.client.ListRecords w.st ⟨domain, page⟩).1, w.sent ++ [.list ⟨domain, page⟩]⟩,
        .error e) := by
  rw [getRecordsLoop, if_pos h]
  simp only [sendList, hr]

/-- Along a served listing whose requested pages are all positive, the loop
makes exactly those requests and gathers exactly those records. -/
theorem getRecordsLoop_serves (n : NameCom σ) (domain : String)
    (rs : List ListRecordsResponse) (w : World σ) (p : Int) (acc : List NamecomRecord)
    (s' : σ) (p' : Int) (extra : Nat)
    (hserve : Serves n.client domain w.st p rs s' p')
    (hpos : ∀ q ∈ pagesOf p rs, 0 < q) :
    getRecordsLoop n domain (rs.length + extra) w p acc =
      getRecordsLoop n domain extra ⟨s', w.sent ++ listRequests domain (pagesOf p rs)⟩ p'
        (acc ++ allRecords rs) := by
  induction rs generalizing w p acc with
  | nil =>
    obtain ⟨h1, h2⟩ := hserve
    subst h1 h2
    simp [pagesOf, listRequests, allRecords]
  | cons r rs ih =>
    obtain ⟨h1, h2⟩ := hserve
    have hp : p > 0 := hpos p (by simp [pagesOf])
    have hfuel : (r :: rs).length + extra = (rs.length + extra) + 1 := by
      simp only [List.length_cons]
      omega
    rw [hfuel, getRecordsLoop_step_ok n domain _ w p acc r hp h1]
    rw [ih _ r.NextPage _ h2 (fun q hq => hpos q (by simp [pagesOf, hq]))]
    simp [pagesOf, listRequests, allRecords, List.append_assoc]

/-- C8, amended: when the provider serves, from page 1 and without a failure, a
listing in which every response but the last names a positive next page and the
last names a page that is not positive (zero or negative), `getRecords` with
fuel for those requests sends exactly the list requests for those pages, once
each and in that order, and returns with no error the records of all the
responses, page after page, each passed through the answer fix of the second
loop. -/
theorem getRecords_follows_pages (n : NameCom σ) (domain : String) (w : World σ)
    (rs : List ListRecordsResponse) (s' : σ) (p' : Int)
    (hserve : Serves n.client domain w.st 1 rs s' p')
    (hpos : ∀ q ∈ pagesOf 1 rs, 0 < q) (hlast : p' ≤ 0) :
    ∀ fuel, rs.length ≤ fuel →
      getRecords n fuel domain w =
        some (⟨s', w.sent ++ listRequests domain (pagesOf 1 rs)⟩,
          ((allRecords rs).map fixAnswer, none)) := by
  intro fuel hfuel
  obtain ⟨extra, rfl⟩ := Nat.exists_eq_add_of_le hfuel
  unfold getRecords
  rw [getRecordsLoop_serves n domain rs w 1 [] s' p' extra hserve hpos,
    getRecordsLoop_stop _ _ _ _ _ _ (by omega)]
  simp

/-- Witness of C8, amended: the two pages of the example provider. -/
theorem getRecords_follows_pages_witness :
    getRecords (NameCom.mk (exampleClient 0)) 2 "example.com" ⟨0, []⟩ =
      some (⟨2, [] ++ listRequests "example.com" (pagesOf 1 examplePages)⟩,
        ((allRecords examplePages).map fixAnswer, none)) :=
  getRecords_follows_pages (NameCom.mk (exampleClient 0)) "example.com" ⟨0, []⟩ examplePages 2 0
    ⟨rfl, rfl, rfl, rfl⟩ (by decide) (by decide) 2 (by decide)

/-- C8 as stated fails on a provider that names a negative next page: the
listing of `negativePageClient`, followed from page 1 by `NextPage`, reaches a
response with `NextPage = 0` after the two requests for pages 1 and -1, neither
failing; but `getRecords` never returns the two pages after those two requests,
whatever the fuel: it stops after the request for page 1 and returns the first
page only. -/
theorem getRecords_stops_at_negative_page :
    Serves negativePageClient "example.com" 0 1
        [⟨[exampleWire 21 "A" "a.example.com." "1.2.3.4"], -1⟩,
          ⟨[exampleWire 22 "A" "b.example.com." "5.6.7.8"], 0⟩] 2 0 ∧
      (∀ fuel, getRecords (NameCom.mk negativePageClient) fuel "example.com" ⟨0, []⟩ ≠
        some (⟨2, listRequests "example.com" [1, -1]⟩,
          ([exampleWire 21 "A" "a.example.com." "1.2.3.4",
            exampleWire 22 "A" "b.example.com." "5.6.7.8"], none))) ∧
      (∀ fuel, getRecords (NameCom.mk negativePageClient) (fuel + 1) "example.com" ⟨0, []⟩ =
        some (⟨1, listRequests "example.com" [1]⟩,
          ([exampleWire 21 "A" "a.example.com." "1.2.3.4"], none))) := by
  have hrun : ∀ fuel,
      getRecords (NameCom.mk negativePageClient) (fuel + 1) "example.com" ⟨0, []⟩ =
        some (⟨1, listRequests "example.com" [1]⟩,
          ([exampleWire 21 "A" "a.example.com." "1.2.3.4"], none)) := by
    intro fuel
    unfold getRecords
    rw [getRecordsLoop_step_ok (NameCom.mk negativePageClient) "example.com" fuel ⟨0, []⟩ 1 []
      ⟨[exampleWire 21 "A" "a.example.com." "1.2.3.4"], -1⟩ (by decide) rfl,
      getRecordsLoop_stop _ _ _ _ _ _ (by decide)]
    rfl
  refine ⟨⟨rfl, rfl, rfl, rfl⟩, ?_, hrun⟩
  intro fuel
  cases fuel with
  | zero =>
    rw [getRecords, getRecordsLoop_zero _ _ _ _ _ (by decide)]
    exact fun h => Option.noConfusion h
  | succ fuel =>
    rw [hrun fuel]
    decide

/-- C9: when the first `k - 1` list requests of `getRecords` are served, each
response naming a positive next page, and the `k`-th request fails with error
`e`, then `getRecords` with fuel for `k` requests returns `e` itself with an
empty record list, so none of the records of the earlier pages, and after the
failed request nothing further is sent.  Here `rs` holds the `k - 1` responses
and `p'` is the page of the `k`-th request. -/
theorem getRecords_page_error (n : NameCom σ) (domain : String) (w : World σ)
    (rs : List ListRecordsResponse) (s' : σ) (p' : Int) (e : GoError)
    (hserve : Serves n.client domain w.st 1 rs s' p')
    (hpos : ∀ q ∈ pagesOf 1 rs, 0 < q) (hp : 0 < p')
    (hfail : (n.client.ListRecords s' ⟨domain, p'⟩).2 = .error e) :
    ∀ fuel, rs.length + 1 ≤ fuel →
      getRecords n fuel domain w =
        some (⟨(n.client.ListRecords s' ⟨domain, p'⟩).1,
            w.sent ++ listRequests domain (pagesOf 1 rs ++ [p'])⟩,
          ([], some e)) := by
  intro fuel hfuel
  obtain ⟨extra, rfl⟩ := Nat.exists_eq_add_of_le hfuel
  unfold getRecords
  rw [Nat.add_assoc, getRecordsLoop_serves n domain rs w 1 [] s' p' (1 + extra) hserve hpos,
    Nat.add_comm 1 extra, getRecordsLoop_step_error n domain extra _ p' _ e hp hfail]
  simp [listRequests]

/-- Witness of C9: the example provider failing on its second page, after a
first page that holds a record, and failing on its first page. -/
theorem getRecords_page_error_witness :
    getRecords (NameCom.mk (exampleClient 2)) 2 "example.com" ⟨0, []⟩ =
        some (⟨2, [] ++ listRequests "example.com" ([1] ++ [2])⟩,
          ([], some (.provider "listing failed"))) ∧
      getRecords (NameCom.mk (exampleClient 1)) 3 "example.com" ⟨0, []⟩ =
        some (⟨1, [] ++ listRequests "example.com" ([] ++ [1])⟩,
          ([], some (.provider "listing failed"))) :=
  ⟨getRecords_page_error (NameCom.mk (exampleClient 2)) "example.com" ⟨0, []⟩
      [⟨[exampleWire 11 "CNAME" "www.example.com." "example.org"], 2⟩] 1 2
      (.provider "listing failed") ⟨rfl, rfl, rfl⟩ (by decide) (by decide) rfl 2 (by decide),
    getRecords_page_error (NameCom.mk (exampleClient 1)) "example.com" ⟨0, []⟩
      [] 0 1 (.provider "listing failed") ⟨rfl, rfl⟩ (by decide) (by decide) rfl 3 (by decide)⟩

/-- A loop that ended without error was served a listing, and what it holds is
what it held before followed by the records of that listing. -/
theorem getRecordsLoop_ok_inv (n : NameCom σ) (domain : String) (fuel : Nat) (w : World σ)
    (p : Int) (acc : List NamecomRecord) (w' : World σ) (recs : List NamecomRecord)
    (h : getRecordsLoop n domain fuel w p acc = some (w', .ok recs)) :
    ∃ rs p', Serves n.client domain w.st p rs w'.st p' ∧ recs = acc ++ allRecords rs := by
  induction fuel generalizing w p acc with
  | zero =>
    by_cases hp : p > 0
    · rw [getRecordsLoop_zero _ _ _ _ _ hp] at h
      cases h
    · rw [getRecordsLoop_stop _ _ _ _ _ _ hp] at h
      cases h
      exact ⟨[], p, ⟨rfl, rfl⟩, by simp [allRecords]⟩
  | succ fuel ih =>
    by_cases hp : p > 0
    · cases hr : (n.client.ListRecords w.st ⟨domain, p⟩).2 with
      | error e =>
        rw [getRecordsLoop_step_error _ _ _ _ _ _ e hp hr] at h
        cases h
      | ok r =>
        rw [getRecordsLoop_step_ok _ _ _ _ _ _ r hp hr] at h
        obtain ⟨rs, p', hs, hrecs⟩ := ih _ _ _ h
        exact ⟨r :: rs, p', ⟨hr, hs⟩, by simp [allRecords, hrecs, List.append_assoc]⟩
    · rw [getRecordsLoop_stop _ _ _ _ _ _ hp] at h
      cases h
      exact ⟨[], p, ⟨rfl, rfl⟩, by simp [allRecords]⟩

theorem fixAnswer_answer (prov : NamecomRecord) :
    (fixAnswer prov).Answer =
      (if prov.Type_ ∈ dottedTypes then prov.Answer ++ "." else prov.Answer) := by
  unfold fixAnswer dottedTypes
  by_cases h : prov.Type_ = "CNAME" ∨ prov.Type_ = "ANAME" ∨ prov.Type_ = "MX" ∨ prov.Type_ = "NS"
  · rw [if_pos h, if_pos (by simpa using h)]
  · rw [if_neg h, if_neg (by simpa using h)]

theorem fixAnswer_rest (prov : NamecomRecord) :
    { fixAnswer prov with Answer := prov.Answer } = prov := by
  unfold fixAnswer
  split <;> rfl

/-- C10: when `getRecords` returns without error, the provider served a listing
`rs` from page 1, and the returned records are the records of that listing, one
for one and in order: each has the answer the provider gave with one `.`
appended when its type is CNAME, ANAME, MX or NS, exactly the provider's answer
for every other type (so A, AAAA, TXT and SRV records come back as served), and
every other field as the provider gave it. -/
theorem getRecords_answers (n : NameCom σ) (fuel : Nat) (domain : String) (w w' : World σ)
    (records : List NamecomRecord)
    (h : getRecords n fuel domain w = some (w', (records, none))) :
    ∃ rs p', Serves n.client domain w.st 1 rs w'.st p' ∧
      records.length = (allRecords rs).length ∧
      ∀ (i : Nat) (prov : NamecomRecord), (allRecords rs)[i]? = some prov →
        ∃ got, records[i]? = some got ∧ FetchedAs prov got := by
  unfold getRecords at h
  split at h
  · cases h
  · cases h
  · rename_i w1 recs hloop
    cases h
    obtain ⟨rs, p', hs, hrecs⟩ := getRecordsLoop_ok_inv n domain fuel w 1 [] _ recs hloop
    rw [List.nil_append] at hrecs
    subst hrecs
    refine ⟨rs, p', hs, by simp, ?_⟩
    intro i prov hi
    refine ⟨fixAnswer prov, by simp [List.getElem?_map, hi], fixAnswer_answer prov,
      fixAnswer_rest prov, ?_⟩
    intro ht
    unfold fixAnswer
    rw [if_neg]
    simp only [List.mem_cons, List.mem_singleton, List.not_mem_nil, or_false] at ht
    rcases ht with h | h | h | h <;> simp [h]

/-- Witness of C10: the fetch of the example provider, whose CNAME and MX
answers come back with a dot and whose A answer comes back as served. -/
theorem getRecords_answers_witness :
    getRecords (NameCom.mk (exampleClient 0)) 5 "example.com" ⟨0, []⟩ =
        some (⟨2, listRequests "example.com" [1, 2]⟩,
          ([exampleWire 11 "CNAME" "www.example.com." "example.org.",
            exampleWire 12 "A" "example.com." "1.2.3.4",
            exampleWire 13 "MX" "example.com." "mail.example.org."], none)) ∧
      ∃ rs p', Serves (exampleClient 0) "example.com" 0 1 rs 2 p' ∧
        [exampleWire 11 "CNAME" "www.example.com." "example.org.",
            exampleWire 12 "A" "example.com." "1.2.3.4",
            exampleWire 13 "MX" "example.com." "mail.example.org."].length =
          (allRecords rs).length ∧
        ∀ (i : Nat) (prov : NamecomRecord), (allRecords rs)[i]? = some prov →
          ∃ got, [exampleWire 11 "CNAME" "www.example.com." "example.org.",
              exampleWire 12 "A" "example.com." "1.2.3.4",
              exampleWire 13 "MX" "example.com." "mail.example.org."][i]? = some got ∧
            FetchedAs prov got :=
  ⟨by decide,
    getRecords_answers (NameCom.mk (exampleClient 0)) 5 "example.com" ⟨0, []⟩
      ⟨2, listRequests "example.com" [1, 2]⟩ _ (by decide)⟩

/-! ## Theorems on what `GetDomainCorrections` sends -/

/-- The paging loop sends list requests for the domain and nothing else. -/
theorem getRecordsLoop_sent (n : NameCom σ) (domain : String) (fuel : Nat) (w : World σ)
    (p : Int) (acc : List NamecomRecord) (w' : World σ)
    (r : Except GoError (List NamecomRecord))
    (h : getRecordsLoop n domain fuel w p acc = some (w', r)) :
    ∃ pages, w'.sent = w.sent ++ listRequests domain pages := by
  induction fuel generalizing w p acc with
  | zero =>
    by_cases hp : p > 0
    · rw [getRecordsLoop_zero _ _ _ _ _ hp] at h
      cases h
    · rw [getRecordsLoop_stop _ _ _ _ _ _ hp] at h
      cases h
      exact ⟨[], by simp [listRequests]⟩
  | succ fuel ih =>
    by_cases hp : p > 0
    · cases hr : (n.client.ListRecords w.st ⟨domain, p⟩).2 with
      | error e =>
        rw [getRecordsLoop_step_error _ _ _ _ _ _ e hp hr] at h
        cases h
        exact ⟨[p], by simp [listRequests]⟩
      | ok resp =>
        rw [getRecordsLoop_step_ok _ _ _ _ _ _ resp hp hr] at h
        obtain ⟨pages, hpages⟩ := ih _ _ _ h
        exact ⟨p :: pages, by simp [hpages, listRequests]⟩
    · rw [getRecordsLoop_stop _ _ _ _ _ _ hp] at h
      cases h
      exact ⟨[], by simp [listRequests]⟩

theorem getRecords_sent (n : NameCom σ) (fuel : Nat) (domain : String) (w w' : World σ)
    (r : List NamecomRecord × Option GoError)
    (h : getRecords n fuel domain w = some (w', r)) :
    ∃ pages, w'.sent = w.sent ++ listRequests domain pages := by
  unfold getRecords at h
  split at h
  · cases h
  · rename_i w1 err hloop
    cases h
    exact getRecordsLoop_sent n domain fuel w 1 [] _ _ hloop
  · rename_i w1 recs hloop
    cases h
    exact getRecordsLoop_sent n domain fuel w 1 [] _ _ hloop

/-- A call whose fetch completes completes too, in the world the fetch left. -/
theorem GetDomainCorrections_world (d : Deps) (n : NameCom σ) (fuel : Nat)
    (dc : DomainConfig) (w w' : World σ) (r : List NamecomRecord × Option GoError)
    (h : getRecords n fuel (d.Punycode dc).Name w = some (w', r)) :
    ∃ res, GetDomainCorrections d n fuel dc w = some res ∧ res.world = w' ∧
      ∀ err, r.2 = some err → res = ⟨w', d.Punycode dc, .returned ([], some err)⟩ := by
  obtain ⟨recs, err⟩ := r
  cases err with
  | some err =>
    refine ⟨⟨w', d.Punycode dc, .returned ([], some err)⟩, ?_, rfl, ?_⟩
    · simp only [GetDomainCorrections, h]
    · intro e he
      cases he
      rfl
  | none =>
    simp only [GetDomainCorrections, h]
    split
    · exact ⟨_, rfl, rfl, fun e he => by cases he⟩
    · split
      · exact ⟨_, rfl, rfl, fun e he => by cases he⟩
      · split
        · exact ⟨_, rfl, rfl, fun e he => by cases he⟩
        · exact ⟨_, rfl, rfl, fun e he => by cases he⟩

/-- C11: building the corrections sends nothing but list requests.  Whenever the
fetch of a call of `GetDomainCorrections` completes, the call completes in the
world the fetch left: the requests sent during the call are list requests for
the domain, so there is no create and no delete request among them, and the
provider has served nothing else.  If the fetch failed, the call returns that
error and no corrections. -/
theorem GetDomainCorrections_sends_only_lists (d : Deps) (n : NameCom σ) (fuel : Nat)
    (dc : DomainConfig) (w w' : World σ) (r : List NamecomRecord × Option GoError)
    (hfetch : getRecords n fuel (d.Punycode dc).Name w = some (w', r)) :
    ∃ res pages, GetDomainCorrections d n fuel dc w = some res ∧ res.world = w' ∧
      res.world.sent = w.sent ++ listRequests (d.Punycode dc).Name pages ∧
      (∀ rq ∈ listRequests (d.Punycode dc).Name pages,
        (∀ x, rq ≠ .create x) ∧ (∀ y, rq ≠ .delete y)) ∧
      (∀ err, r.2 = some err → res.out = .returned ([], some err)) := by
  obtain ⟨res, hres, hw, herr⟩ := GetDomainCorrections_world d n fuel dc w w' r hfetch
  obtain ⟨pages, hpages⟩ := getRecords_sent n fuel _ w w' r hfetch
  refine ⟨res, pages, hres, hw, by rw [hw, hpages], ?_, ?_⟩
  · intro rq hrq
    simp only [listRequests, List.mem_map] at hrq
    obtain ⟨p, _, rfl⟩ := hrq
    exact ⟨fun x h => (by cases h), fun y h => (by cases h)⟩
  · intro err he
    rw [herr err he]

/-- Witness of C11: the example zone at the example provider, with a fetch of
two pages and with a fetch that fails on its second page. -/
theorem GetDomainCorrections_sends_only_lists_witness :
    (∃ res pages,
      GetDomainCorrections exampleReplaceDeps (NameCom.mk (exampleClient 0)) 5 exampleZone
          ⟨0, []⟩ = some res ∧
        res.world = ⟨2, listRequests "example.com" [1, 2]⟩ ∧
        res.world.sent = [] ++ listRequests (exampleReplaceDeps.Punycode exampleZone).Name pages ∧
        (∀ rq ∈ listRequests (exampleReplaceDeps.Punycode exampleZone).Name pages,
          (∀ x, rq ≠ .create x) ∧ (∀ y, rq ≠ .delete y)) ∧
        (∀ err, (([exampleWire 11 "CNAME" "www.example.com." "example.org.",
              exampleWire 12 "A" "example.com." "1.2.3.4",
              exampleWire 13 "MX" "example.com." "mail.example.org."], none) :
            List NamecomRecord × Option GoError).2 = some err →
          res.out = .returned ([], some err))) ∧
      (∃ res pages,
        GetDomainCorrections exampleReplaceDeps (NameCom.mk (exampleClient 2)) 5 exampleZone
            ⟨0, []⟩ = some res ∧
          res.world = ⟨2, listRequests "example.com" [1, 2]⟩ ∧
          res.world.sent =
            [] ++ listRequests (exampleReplaceDeps.Punycode exampleZone).Name pages ∧
          (∀ rq ∈ listRequests (exampleReplaceDeps.Punycode exampleZone).Name pages,
            (∀ x, rq ≠ .create x) ∧ (∀ y, rq ≠ .delete y)) ∧
          (∀ err, (([], some (.provider "listing failed")) :
              List NamecomRecord × Option GoError).2 = some err →
            res.out = .returned ([], some err))) :=
  ⟨GetDomainCorrections_sends_only_lists exampleReplaceDeps (NameCom.mk (exampleClient 0)) 5
      exampleZone ⟨0, []⟩ ⟨2, listRequests "example.com" [1, 2]⟩ _ (by decide),
    GetDomainCorrections_sends_only_lists exampleReplaceDeps (NameCom.mk (exampleClient 2)) 5
      exampleZone ⟨0, []⟩ ⟨2, listRequests "example.com" [1, 2]⟩ _ (by decide)⟩

/-! ## Theorems on `createRecord` -/

theorem createRecord_plain (d : Deps) (n : NameCom σ) (rc : RecordConfig) (domain : String)
    (w : World σ) (h : rc.Type_ ∈ plainTypes) :
    createRecord d n rc domain w =
      createSent n w
        { ID := 0, DomainName := domain, Host := d.TrimDomainName rc.NameFQDN domain, Fqdn := "",
          Type_ := rc.Type_, Answer := rc.Target, TTL := rc.TTL, Priority := rc.MxPreference } := by
  have h' : rc.Type_ ∈ ["A", "AAAA", "ANAME", "CNAME", "MX", "NS"] := h
  unfold createRecord
  dsimp only
  rw [if_pos h']
  rfl

theorem createRecord_txt (d : Deps) (n : NameCom σ) (rc : RecordConfig) (domain : String)
    (w : World σ) (h : rc.Type_ = "TXT") :
    createRecord d n rc domain w =
      createSent n w
        { ID := 0, DomainName := domain, Host := d.TrimDomainName rc.NameFQDN domain, Fqdn := "",
          Type_ := rc.Type_,
          Answer :=
            if rc.TxtStrings.length > 1 then
              "\"" ++ String.mk (escapeQuotes (d.TargetTXTQuoted rc).data) ++ "\""
            else d.TargetTXTQuoted rc,
          TTL := rc.TTL, Priority := rc.MxPreference } := by
  unfold createRecord
  dsimp only
  rw [if_neg (by rw [h]; decide), if_pos h]
  split <;> rfl

theorem createRecord_srv (d : Deps) (n : NameCom σ) (rc : RecordConfig) (domain : String)
    (w : World σ) (h : rc.Type_ = "SRV") :
    createRecord d n rc domain w =
      createSent n w
        { ID := 0, DomainName := domain, Host := d.TrimDomainName rc.NameFQDN domain, Fqdn := "",
          Type_ := rc.Type_,
          Answer := toString rc.SrvWeight ++ " " ++ toString rc.SrvPort ++ " " ++ rc.Target,
          TTL := rc.TTL, Priority := rc.SrvPriority } := by
  unfold createRecord
  dsimp only
  rw [if_neg (by rw [h]; decide), if_neg (by rw [h]; decide), if_pos h]
  rfl

theorem createRecord_other (d : Deps) (n : NameCom σ) (rc : RecordConfig) (domain : String)
    (w : World σ) (h : rc.Type_ ∉ createTypes) :
    createRecord d n rc domain w =
      (w, .panicked (.text ("createRecord rtype " ++ rc.Type_ ++ " unimplemented"))) := by
  have h1 : rc.Type_ ∉ ["A", "AAAA", "ANAME", "CNAME", "MX", "NS"] := by
    intro hh
    apply h
    simp only [createTypes, List.mem_cons, List.mem_singleton, List.not_mem_nil, or_false] at hh ⊢
    tauto
  have h2 : ¬ rc.Type_ = "TXT" := by
    intro hh
    apply h
    simp [createTypes, hh]
  have h3 : ¬ rc.Type_ = "SRV" := by
    intro hh
    apply h
    simp [createTypes, hh]
  unfold createRecord
  dsimp only
  rw [if_neg h1, if_neg h2, if_neg h3]

theorem createRecord_sends (d : Deps) (n : NameCom σ) (rc : RecordConfig) (domain : String)
    (w : World σ) (h : rc.Type_ ∈ createTypes) :
    ∃ record, createRecord d n rc domain w = createSent n w record := by
  simp only [createTypes, List.mem_cons, List.mem_singleton, List.not_mem_nil, or_false] at h
  by_cases hp : rc.Type_ ∈ plainTypes
  · exact ⟨_, createRecord_plain d n rc domain w hp⟩
  · have hp' : ¬ (rc.Type_ = "A" ∨ rc.Type_ = "AAAA" ∨ rc.Type_ = "ANAME" ∨ rc.Type_ = "CNAME" ∨
        rc.Type_ = "MX" ∨ rc.Type_ = "NS") := by
      simpa [plainTypes] using hp
    have h' : rc.Type_ = "TXT" ∨ rc.Type_ = "SRV" := by tauto
    rcases h' with h' | h'
    · exact ⟨_, createRecord_txt d n rc domain w h'⟩
    · exact ⟨_, createRecord_srv d n rc domain w h'⟩

/-- C12: `createRecord` panics exactly when the record's type is not one of A,
AAAA, ANAME, CNAME, MX, NS, TXT, SRV, and then nothing has been sent: the world
is as before the call.  For each of the eight types exactly one create request
is sent and the client's error result is returned as it is. -/
theorem createRecord_panics_iff (d : Deps) (n : NameCom σ) (rc : RecordConfig)
    (domain : String) (w : World σ) :
    ((∃ v, (createRecord d n rc domain w).2 = .panicked v) ↔ rc.Type_ ∉ createTypes) ∧
      (rc.Type_ ∉ createTypes → (createRecord d n rc domain w).1 = w) ∧
      (rc.Type_ ∈ createTypes → ∃ record, createRecord d n rc domain w = createSent n w record) := by
  refine ⟨⟨?_, ?_⟩, ?_, createRecord_sends d n rc domain w⟩
  · rintro ⟨v, hv⟩ hin
    obtain ⟨record, hrec⟩ := createRecord_sends d n rc domain w hin
    rw [hrec] at hv
    cases hv
  · intro h
    rw [createRecord_other d n rc domain w h]
    exact ⟨_, rfl⟩
  · intro h
    rw [createRecord_other d n rc domain w h]

/-- Witness of C12: a CAA record as `SetTargetCAA` builds it and an ALIAS record
make the call panic with nothing sent; an A record is sent. -/
theorem createRecord_panics_iff_witness :
    (createRecord exampleDeps (NameCom.mk (exampleClient 0))
        (SetTargetCAA RecordConfig.zero 0 "issue" "letsencrypt.org").rc "example.com"
        ⟨0, []⟩).1 = ⟨0, []⟩ ∧
      (∃ v, (createRecord exampleDeps (NameCom.mk (exampleClient 0))
        (SetTargetCAA RecordConfig.zero 0 "issue" "letsencrypt.org").rc "example.com"
        ⟨0, []⟩).2 = .panicked v) ∧
      (∃ v, (createRecord exampleDeps (NameCom.mk (exampleClient 0))
        (exampleRecord "ALIAS" "example.com" "example.org.") "example.com"
        ⟨0, []⟩).2 = .panicked v) ∧
      (∃ record, createRecord exampleDeps (NameCom.mk (exampleClient 0))
        (exampleRecord "A" "www.example.com" "1.2.3.4") "example.com" ⟨0, []⟩ =
          createSent (NameCom.mk (exampleClient 0)) ⟨0, []⟩ record) :=
  ⟨(createRecord_panics_iff exampleDeps _ _ "example.com" ⟨0, []⟩).2.1 (by decide),
    (createRecord_panics_iff exampleDeps _ _ "example.com" ⟨0, []⟩).1.2 (by decide),
    (createRecord_panics_iff exampleDeps _ _ "example.com" ⟨0, []⟩).1.2 (by decide),
    (createRecord_panics_iff exampleDeps _ _ "example.com" ⟨0, []⟩).2.2 (by decide)⟩

theorem digitChar_toNat (k : Nat) (h : k < 10) : (Nat.digitChar k).toNat = 48 + k := by
  interval_cases k <;> rfl

theorem toDigitsCore_decimal (fuel n : Nat) (ds : List Char) (h : n < fuel) :
    ∃ pre, Nat.toDigitsCore 10 fuel n ds = pre ++ ds ∧ pre ≠ [] ∧
      (∀ c ∈ pre, isDecimalDigit c = true) ∧
      pre.foldl (fun n c => 10 * n + (c.toNat - 48)) 0 = n := by
  induction fuel generalizing n ds with
  | zero => omega
  | succ fuel ih =>
    have hd : (Nat.digitChar (n % 10)).toNat = 48 + n % 10 :=
      digitChar_toNat _ (Nat.mod_lt _ (by decide))
    have hdig : isDecimalDigit (Nat.digitChar (n % 10)) = true := by
      have := Nat.mod_lt n (show 0 < 10 by decide)
      simp only [isDecimalDigit, hd, Bool.and_eq_true, decide_eq_true_eq]
      omega
    rw [Nat.toDigitsCore]
    by_cases h0 : n / 10 = 0
    · simp only [h0, if_true]
      refine ⟨[Nat.digitChar (n % 10)], rfl, by simp, ?_, ?_⟩
      · intro c hc
        rw [List.mem_singleton.1 hc]
        exact hdig
      · simp only [List.foldl_cons, List.foldl_nil, hd]
        omega
    · simp only [h0, if_false]
      obtain ⟨pre, hpre, _, hall, hval⟩ :=
        ih (n / 10) (Nat.digitChar (n % 10) :: ds) (by omega)
      refine ⟨pre ++ [Nat.digitChar (n % 10)], by simp [hpre], by simp, ?_, ?_⟩
      · intro c hc
        rcases List.mem_append.1 hc with hc | hc
        · exact hall c hc
        · rw [List.mem_singleton.1 hc]
          exact hdig
      · rw [List.foldl_append, hval]
        simp only [List.foldl_cons, List.foldl_nil, hd]
        omega

/-- The text `toString n` is the decimal numeral of `n`. -/
theorem toString_decimal (n : Nat) :
    isDecimalNumeral (toString n) = true ∧ numeralValue (toString n) = n := by
  obtain ⟨pre, hpre, hne, hall, hval⟩ := toDigitsCore_decimal (n + 1) n [] (by omega)
  have hdata : (toString n).data = pre := by
    show (Nat.repr n).data = pre
    rw [Nat.repr, Nat.toDigits, hpre, List.append_nil]
    rfl
  constructor
  · simp only [isDecimalNumeral, hdata, Bool.and_eq_true, Bool.not_eq_true', List.all_eq_true,
      List.isEmpty_eq_false]
    exact ⟨hne, hall⟩
  · rw [numeralValue, hdata, hval]

/-- C13: for a record of type SRV, `createRecord` sends one create request whose
answer is the decimal rendering of `SrvWeight`, a blank, the decimal rendering
of `SrvPort`, a blank and the record's target, whose priority is `SrvPriority`,
whose type and TTL are the record's and whose domain name is the given domain.
The renderings are decimal numerals that denote the weight and the port. -/
theorem createRecord_srv_request (d : Deps) (n : NameCom σ) (rc : RecordConfig)
    (domain : String) (w : World σ) (h : rc.Type_ = "SRV") :
    ∃ record, createRecord d n rc domain w = createSent n w record ∧
      record.Answer = toString rc.SrvWeight ++ " " ++ toString rc.SrvPort ++ " " ++ rc.Target ∧
      (isDecimalNumeral (toString rc.SrvWeight) = true ∧
        numeralValue (toString rc.SrvWeight) = rc.SrvWeight) ∧
      (isDecimalNumeral (toString rc.SrvPort) = true ∧
        numeralValue (toString rc.SrvPort) = rc.SrvPort) ∧
      record.Priority = rc.SrvPriority ∧ record.Type_ = rc.Type_ ∧ record.TTL = rc.TTL ∧
      record.DomainName = domain :=
  ⟨_, createRecord_srv d n rc domain w h, rfl, toString_decimal _, toString_decimal _,
    rfl, rfl, rfl, rfl⟩

/-- Witness of C13: weight 10, port 5060 and priority 5 give the answer
`10 5060 sip.example.com.` and the priority 5, not the `MxPreference` 99. -/
theorem createRecord_srv_request_witness :
    ∃ record, createRecord exampleDeps (NameCom.mk (exampleClient 0)) exampleSrv "example.com"
        ⟨0, []⟩ = createSent (NameCom.mk (exampleClient 0)) ⟨0, []⟩ record ∧
      record.Answer = "10 5060 sip.example.com." ∧
      record.Priority = 5 ∧ record.Type_ = "SRV" ∧ record.TTL = 300 ∧
      record.DomainName = "example.com" := by
  obtain ⟨record, h1, h2, _, _, h3⟩ := createRecord_srv_request exampleDeps
    (NameCom.mk (exampleClient 0)) exampleSrv "example.com" ⟨0, []⟩ rfl
  exact ⟨record, h1, h2, h3⟩

/-- C18: for a record of type A, AAAA, ANAME, CNAME, MX or NS, `createRecord`
sends one create request whose answer is exactly the record's target, whose
priority is `MxPreference`, whose type and TTL are the record's and whose domain
name is the given domain. -/
theorem createRecord_plain_request (d : Deps) (n : NameCom σ) (rc : RecordConfig)
    (domain : String) (w : World σ) (h : rc.Type_ ∈ plainTypes) :
    ∃ record, createRecord d n rc domain w = createSent n w record ∧
      record.Answer = rc.Target ∧ record.Priority = rc.MxPreference ∧
      record.Type_ = rc.Type_ ∧ record.TTL = rc.TTL ∧ record.DomainName = domain :=
  ⟨_, createRecord_plain d n rc domain w h, rfl, rfl, rfl, rfl, rfl⟩

/-- Witness of C18: an MX record is sent with its target as it is and its
preference as the priority. -/
theorem createRecord_plain_request_witness :
    ∃ record, createRecord exampleDeps (NameCom.mk (exampleClient 0)) exampleMx "example.com"
        ⟨0, []⟩ = createSent (NameCom.mk (exampleClient 0)) ⟨0, []⟩ record ∧
      record.Answer = "mail.example.com." ∧ record.Priority = 10 ∧
      record.Type_ = "MX" ∧ record.TTL = 300 ∧ record.DomainName = "example.com" :=
  createRecord_plain_request exampleDeps (NameCom.mk (exampleClient 0)) exampleMx "example.com"
    ⟨0, []⟩ (by decide)

theorem escapeQuotes_eq (l : List Char) :
    escapeQuotes l = l.flatMap (fun c => if c = dquote then [backslash, dquote] else [c]) := by
  induction l with
  | nil => rfl
  | cons c cs ih =>
    rw [escapeQuotes, ih, List.flatMap_cons]
    by_cases h : c = Char.ofNat 34
    · have h' : c = dquote := h
      rw [if_pos h, if_pos h']
      rfl
    · have h' : ¬ c = dquote := h
      rw [if_neg h, if_neg h']
      rfl

theorem escapeQuotes_head (l rest : List Char) : escapeQuotes l ≠ dquote :: rest := by
  cases l with
  | nil => simp [escapeQuotes]
  | cons c cs =>
    rw [escapeQuotes]
    by_cases h : c = Char.ofNat 34
    · rw [if_pos h]
      intro hh
      have := (List.cons.inj hh).1
      exact absurd this (by decide)
    · rw [if_neg h]
      intro hh
      exact h (List.cons.inj hh).1

/-- In an escaped text a double quote never follows a character other than a
backslash. -/
theorem escapeQuotes_quote_after (l pre rest : List Char) (c : Char)
    (h : escapeQuotes l = pre ++ c :: dquote :: rest) : c = backslash := by
  induction l generalizing pre with
  | nil =>
    simp [escapeQuotes] at h
  | cons x xs ih =>
    rw [escapeQuotes] at h
    by_cases hx : x = Char.ofNat 34
    · rw [if_pos hx] at h
      match pre, h with
      | [], h =>
        exact ((List.cons.inj h).1).symm
      | [p], h =>
        have h2 := (List.cons.inj (List.cons.inj h).2).2
        exact absurd h2 (escapeQuotes_head xs rest)
      | p :: p2 :: pre', h =>
        have h2 := (List.cons.inj (List.cons.inj h).2).2
        exact ih pre' h2
    · rw [if_neg hx] at h
      match pre, h with
      | [], h =>
        have h2 := (List.cons.inj h).2
        exact absurd h2 (escapeQuotes_head xs rest)
      | p :: pre', h =>
        exact ih pre' (List.cons.inj h).2

theorem quotedSegments_ends (t : String) (ts : List String) :
    ∃ m, (quotedSegments (t :: ts)).data = m ++ [dquote] := by
  induction ts generalizing t with
  | nil =>
    refine ⟨dquote :: (backslashEscaped t).data, ?_⟩
    simp [quotedSegments, quoteSegment, String.data_append, dquote]
  | cons u us ih =>
    obtain ⟨m, hm⟩ := ih u
    refine ⟨(quoteSegment t).data ++ m, ?_⟩
    rw [quotedSegments, String.data_append, hm, List.append_assoc]

/-- Whatever text is wrapped, one wrapped and escaped text is never the
concatenation of two or more segments wrapped and escaped one by one: in that
concatenation a double quote follows a double quote. -/
theorem wrapped_ne_quotedSegments (x : String) (t u : String) (ts : List String) :
    "\"" ++ String.mk (escapeQuotes x.data) ++ "\"" ≠ quotedSegments (t :: u :: ts) := by
  intro h
  obtain ⟨m, hm⟩ := quotedSegments_ends u ts
  have hd := congrArg String.data h
  have hrhs : (quotedSegments (t :: u :: ts)).data = (quoteSegment t).data ++ (m ++ [dquote]) := by
    rw [quotedSegments, String.data_append, hm]
  rw [hrhs] at hd
  have hl : ("\"" ++ String.mk (escapeQuotes x.data) ++ "\"").data =
      dquote :: (escapeQuotes x.data ++ [dquote]) := by
    simp [String.data_append, dquote]
  have hr : (quoteSegment t).data = dquote :: ((backslashEscaped t).data ++ [dquote]) := by
    simp [quoteSegment, String.data_append, dquote]
  rw [hl, hr] at hd
  have hd2 := (List.cons.inj hd).2
  have hd3 : escapeQuotes x.data ++ [dquote] =
      ((backslashEscaped t).data ++ dquote :: m) ++ [dquote] := by
    rw [hd2]
    simp [List.append_assoc]
  have hd4 := List.append_cancel_right hd3
  cases m with
  | nil =>
    -- the second segment would be empty text without its quotes
    have : (quotedSegments (u :: ts)).data.length ≥ 2 := by
      rw [quotedSegments, String.data_append, quoteSegment]
      simp [String.data_append]
      omega
    rw [hm] at this
    simp at this
  | cons c m' =>
    have hc : c = dquote := by
      have hq : (quotedSegments (u :: ts)).data.head? = some dquote := by
        rw [quotedSegments, String.data_append, quoteSegment]
        simp [String.data_append, dquote]
      rw [hm] at hq
      simpa using hq
    rw [hc] at hd4
    have := escapeQuotes_quote_after x.data (backslashEscaped t).data m' dquote hd4
    exact absurd this (by decide)

theorem createSent_inj (n : NameCom σ) (w : World σ) (a b : NamecomRecord)
    (h : createSent n w a = createSent n w b) : a = b := by
  have h1 := congrArg (fun r => r.1.sent) h
  simp only [createSent] at h1
  have h2 := List.append_cancel_left h1
  simpa using h2

/-- C14, amended: for a record of type TXT with more than one segment,
`createRecord` sends as the answer one double-quoted text: the record's quoted
rendering `TargetTXTQuoted` as a whole, with a backslash before each of its
double quotes, inside one pair of double quotes.  With one segment or none the
answer is `TargetTXTQuoted` unmodified, so it is the segment in one pair of
double quotes whenever `TargetTXTQuoted` renders a single segment so. -/
theorem createRecord_txt_request (d : Deps) (n : NameCom σ) (rc : RecordConfig)
    (domain : String) (w : World σ) (h : rc.Type_ = "TXT") :
    ∃ record, createRecord d n rc domain w = createSent n w record ∧
      (rc.TxtStrings.length > 1 →
        record.Answer = "\"" ++ backslashEscaped (d.TargetTXTQuoted rc) ++ "\"") ∧
      (rc.TxtStrings.length ≤ 1 → record.Answer = d.TargetTXTQuoted rc) ∧
      (∀ t, rc.TxtStrings = [t] → d.TargetTXTQuoted rc = "\"" ++ t ++ "\"" →
        record.Answer = "\"" ++ t ++ "\"") := by
  refine ⟨_, createRecord_txt d n rc domain w h, ?_, ?_, ?_⟩
  · intro hlen
    simp only [hlen, if_true, backslashEscaped, escapeQuotes_eq]
  · intro hlen
    have : ¬ rc.TxtStrings.length > 1 := by omega
    simp only [this, if_false]
  · intro t ht hq
    have : ¬ rc.TxtStrings.length > 1 := by simp [ht]
    simp only [this, if_false, hq]

/-- Witness of C14, amended: the two segments `hello` and `world`, whose quoted
rendering in the examples is the segments in quotes with a blank between, and
the single segment `hello`. -/
theorem createRecord_txt_request_witness :
    (∃ record, createRecord exampleDeps (NameCom.mk (exampleClient 0)) exampleTxt "example.com"
        ⟨0, []⟩ = createSent (NameCom.mk (exampleClient 0)) ⟨0, []⟩ record ∧
      record.Answer = "\"\\\"hello\\\" \\\"world\\\"\"") ∧
      (∃ record, createRecord exampleDeps (NameCom.mk (exampleClient 0))
          { exampleTxt with TxtStrings := ["hello"] } "example.com" ⟨0, []⟩ =
            createSent (NameCom.mk (exampleClient 0)) ⟨0, []⟩ record ∧
        record.Answer = "\"hello\"") := by
  obtain ⟨r1, h1, ha1, _, _⟩ := createRecord_txt_request exampleDeps
    (NameCom.mk (exampleClient 0)) exampleTxt "example.com" ⟨0, []⟩ rfl
  obtain ⟨r2, h2, _, _, ha2⟩ := createRecord_txt_request exampleDeps
    (NameCom.mk (exampleClient 0)) { exampleTxt with TxtStrings := ["hello"] } "example.com"
    ⟨0, []⟩ rfl
  exact ⟨⟨r1, h1, by rw [ha1 (by decide)]; decide⟩, ⟨r2, h2, ha2 "hello" rfl (by decide)⟩⟩

/-- C14 as stated fails on the TXT record with the two segments `hello` and
`world`: the concatenation of the segments wrapped one by one is
`"hello""world"`, and whatever `TargetTXTQuoted` returns, the answer of the
create request that `createRecord` sends is a different text; with the quoted
rendering of the examples it is `"\"hello\" \"world\""`. -/
theorem createRecord_txt_not_per_segment :
    quotedSegments exampleTxt.TxtStrings = "\"hello\"\"world\"" ∧
      (∀ (q : RecordConfig → String) (record : NamecomRecord),
        createRecord { exampleDeps with TargetTXTQuoted := q } (NameCom.mk (exampleClient 0))
            exampleTxt "example.com" ⟨0, []⟩ =
          createSent (NameCom.mk (exampleClient 0)) ⟨0, []⟩ record →
        record.Answer ≠ quotedSegments exampleTxt.TxtStrings) ∧
      (∃ record, createRecord exampleDeps (NameCom.mk (exampleClient 0)) exampleTxt
          "example.com" ⟨0, []⟩ = createSent (NameCom.mk (exampleClient 0)) ⟨0, []⟩ record ∧
        record.Answer = "\"\\\"hello\\\" \\\"world\\\"\"") := by
  refine ⟨by decide, ?_, ⟨_, createRecord_txt exampleDeps _ exampleTxt "example.com" _ rfl,
    by decide⟩⟩
  intro q record hrec
  rw [createRecord_txt { exampleDeps with TargetTXTQuoted := q } _ exampleTxt "example.com" _ rfl]
    at hrec
  have := createSent_inj _ _ _ _ hrec
  rw [← this]
  exact wrapped_ne_quotedSegments (q exampleTxt) "hello" "world" []

/-! ## Theorems on `toRecord` -/

theorem HasSuffix_dot_iff (s : String) : HasSuffix s "." = true ↔ s.data.getLast? = some dot := by
  unfold HasSuffix
  rw [List.isSuffixOf_iff_suffix, List.getLast?_eq_some_iff]
  constructor
  · rintro ⟨t, ht⟩
    exact ⟨t, ht.symm⟩
  · rintro ⟨t, ht⟩
    exact ⟨t, ht.symm⟩

theorem dropLastByte_append_dot (s : String) (h : s.data.getLast? = some dot) :
    s = dropLastByte s ++ "." := by
  obtain ⟨t, ht⟩ := List.getLast?_eq_some_iff.1 h
  apply String.ext
  rw [String.data_append, dropLastByte, ht]
  simp [dot]

/-- C15: `toRecord` panics for every provider record whose `Fqdn` does not end
with a full stop, the empty `Fqdn` included, and it does so whatever the label
and target setters are, so before any of them is consulted.  When `Fqdn` ends
with a full stop, the slice bound `len - 1` lies between 0 and `len`, and the
owner name handed to the label setter is `Fqdn` with that one full stop
removed: a panic of the setter on that name is the panic of `toRecord`, a
returned record needs the setter to have returned on that name, and the
setter's results on other names do not matter. -/
theorem toRecord_fqdn_guard (r : NamecomRecord) (origin : String) :
    (r.Fqdn.data.getLast? ≠ some dot →
        ∀ d : Deps, toRecord d r origin =
          .panicked (.error
            (.errorf "namedotcom suddenly changed protocol. Bailing. (%v)" [r.Fqdn]))) ∧
      (r.Fqdn.data.getLast? = some dot →
        ∃ fqdn : String, r.Fqdn = fqdn ++ "." ∧
          0 ≤ (r.Fqdn.data.length : Int) - 1 ∧
          (r.Fqdn.data.length : Int) - 1 ≤ r.Fqdn.data.length ∧
          ∀ d : Deps,
            (∀ v, d.SetLabelFQDN (freshRecord r) fqdn origin = .panicked v →
              toRecord d r origin = .panicked v) ∧
            (∀ rc, toRecord d r origin = .returned rc →
              ∃ rc1, d.SetLabelFQDN (freshRecord r) fqdn origin = .returned rc1) ∧
            (∀ f : RecordConfig → String → String → Outcome RecordConfig,
              f (freshRecord r) fqdn origin = d.SetLabelFQDN (freshRecord r) fqdn origin →
              toRecord { d with SetLabelFQDN := f } r origin = toRecord d r origin)) := by
  constructor
  · intro h d
    have hs : HasSuffix r.Fqdn "." = false := by
      cases hh : HasSuffix r.Fqdn "." with
      | false => rfl
      | true => exact absurd ((HasSuffix_dot_iff _).1 hh) h
    unfold toRecord
    simp only [hs, Bool.false_eq_true, not_false_eq_true, if_true]
  · intro h
    have hs : HasSuffix r.Fqdn "." = true := (HasSuffix_dot_iff _).2 h
    obtain ⟨t, ht⟩ := List.getLast?_eq_some_iff.1 h
    refine ⟨dropLastByte r.Fqdn, dropLastByte_append_dot _ h, ?_, ?_, ?_⟩
    · rw [ht]
      simp
    · omega
    · intro d
      refine ⟨?_, ?_, ?_⟩
      · intro v hv
        unfold freshRecord at hv
        unfold toRecord
        simp only [hs, not_true_eq_false, if_false, hv]
      · intro rc hrc
        cases hset : d.SetLabelFQDN (freshRecord r) (dropLastByte r.Fqdn) origin with
        | returned rc1 => exact ⟨rc1, rfl⟩
        | panicked v =>
          unfold freshRecord at hset
          unfold toRecord at hrc
          simp only [hs, not_true_eq_false, if_false, hset] at hrc
          cases hrc
      · intro f hf
        unfold freshRecord at hf
        unfold toRecord
        simp only [hs, not_true_eq_false, if_false, hf]

/-- Witness of C15: the empty name and a name without the full stop make
`toRecord` panic; the name `www.example.com.` is handed on without its full
stop. -/
theorem toRecord_fqdn_guard_witness :
    toRecord exampleDeps (exampleWire 31 "A" "" "1.2.3.4") "example.com" =
        .panicked (.error
          (.errorf "namedotcom suddenly changed protocol. Bailing. (%v)" [""])) ∧
      toRecord exampleDeps (exampleWire 32 "A" "www.example.com" "1.2.3.4") "example.com" =
        .panicked (.error
          (.errorf "namedotcom suddenly changed protocol. Bailing. (%v)" ["www.example.com"])) ∧
      (∃ fqdn : String, "www.example.com." = fqdn ++ "." ∧
        ∀ rc, toRecord exampleDeps (exampleWire 33 "A" "www.example.com." "1.2.3.4")
            "example.com" = .returned rc →
          ∃ rc1, exampleDeps.SetLabelFQDN
            (freshRecord (exampleWire 33 "A" "www.example.com." "1.2.3.4")) fqdn "example.com" =
              .returned rc1) := by
  refine ⟨(toRecord_fqdn_guard (exampleWire 31 "A" "" "1.2.3.4") "example.com").1 (by decide)
      exampleDeps,
    (toRecord_fqdn_guard (exampleWire 32 "A" "www.example.com" "1.2.3.4") "example.com").1
      (by decide) exampleDeps, ?_⟩
  obtain ⟨fqdn, h1, _, _, h2⟩ :=
    (toRecord_fqdn_guard (exampleWire 33 "A" "www.example.com." "1.2.3.4") "example.com").2
      (by decide)
  exact ⟨fqdn, h1, (h2 exampleDeps).2.1⟩

/-! ## Further theorems on `SetTargetCAA` and `checkNSModifications` -/

/-- C16, amended: on a record whose type is neither empty nor CAA the call of
`SetTargetCAA` panics and the record keeps its type, so it never becomes a CAA
record; but the three data fields have been assigned by then: at the panic
`CaaTag`, `CaaFlag` and `Target` hold the arguments of the call, every other
field being as before.  The type check comes after the assignments. -/
theorem SetTargetCAA_abort_state (rc : RecordConfig) (flag : Nat) (tag target : String)
    (h1 : rc.Type_ ≠ "") (h2 : rc.Type_ ≠ "CAA") :
    SetTargetCAA rc flag tag target =
      ⟨{ rc with CaaTag := tag, CaaFlag := flag, Target := target },
        .panicked (.text "assertion failed: SetTargetCAA called when .Type is not CAA")⟩ := by
  unfold SetTargetCAA
  simp [h1, h2]

/-- Witness of C16, amended: an A record. -/
theorem SetTargetCAA_abort_state_witness :
    SetTargetCAA (exampleRecord "A" "www.example.com" "1.2.3.4") 128 "issue" "ca.example" =
      ⟨{ exampleRecord "A" "www.example.com" "1.2.3.4" with
          CaaTag := "issue", CaaFlag := 128, Target := "ca.example" },
        .panicked (.text "assertion failed: SetTargetCAA called when .Type is not CAA")⟩ :=
  SetTargetCAA_abort_state _ 128 "issue" "ca.example" (by decide) (by decide)

/-- C16 as stated fails on an A record with target `1.2.3.4`: the call with
flag 128, tag `issue` and target `ca.example` panics, and the record it leaves
has the CAA tag `issue`, the CAA flag 128 and the target `ca.example` in place
of the empty tag, the flag 0 and the target `1.2.3.4` it had before. -/
theorem SetTargetCAA_assigns_before_check :
    (exampleRecord "A" "www.example.com" "1.2.3.4").Type_ ≠ "" ∧
      (exampleRecord "A" "www.example.com" "1.2.3.4").Type_ ≠ "CAA" ∧
      (∃ v, (SetTargetCAA (exampleRecord "A" "www.example.com" "1.2.3.4") 128 "issue"
        "ca.example").out = .panicked v) ∧
      (SetTargetCAA (exampleRecord "A" "www.example.com" "1.2.3.4") 128 "issue"
          "ca.example").rc.CaaTag = "issue" ∧
      (exampleRecord "A" "www.example.com" "1.2.3.4").CaaTag = "" ∧
      (SetTargetCAA (exampleRecord "A" "www.example.com" "1.2.3.4") 128 "issue"
          "ca.example").rc.CaaFlag = 128 ∧
      (exampleRecord "A" "www.example.com" "1.2.3.4").CaaFlag = 0 ∧
      (SetTargetCAA (exampleRecord "A" "www.example.com" "1.2.3.4") 128 "issue"
          "ca.example").rc.Target = "ca.example" ∧
      (exampleRecord "A" "www.example.com" "1.2.3.4").Target = "1.2.3.4" := by
  refine ⟨by decide, by decide, ⟨_, rfl⟩, by decide, by decide, by decide, by decide,
    by decide, by decide⟩

/-- C19: `checkNSModifications` is idempotent, and the list it leaves is never
longer than the list it was given, the two having the same length exactly when
the given list holds no NS record whose owner is the zone name. -/
theorem checkNSModifications_idempotent (dc : DomainConfig) :
    checkNSModifications (checkNSModifications dc) = checkNSModifications dc ∧
      (checkNSModifications dc).Records.length ≤ dc.Records.length ∧
      ((checkNSModifications dc).Records.length = dc.Records.length ↔
        ∀ r ∈ dc.Records, ¬ (r.Type_ = "NS" ∧ r.NameFQDN = dc.Name)) := by
  have hname : (checkNSModifications dc).Name = dc.Name := rfl
  have hrec := checkNSModifications_records dc
  refine ⟨?_, ?_, ?_⟩
  · have h2 := checkNSModifications_records (checkNSModifications dc)
    rw [hname, hrec, List.filter_filter] at h2
    have h3 : (checkNSModifications (checkNSModifications dc)).Records =
        (checkNSModifications dc).Records := by
      rw [h2, hrec]
      congr 1
      funext r
      simp
    have h4 : (checkNSModifications (checkNSModifications dc)).Name =
        (checkNSModifications dc).Name := rfl
    cases hx : checkNSModifications (checkNSModifications dc) with
    | mk nm rs =>
      cases hy : checkNSModifications dc with
      | mk nm' rs' =>
        rw [hx, hy] at h3 h4
        simp only at h3 h4
        rw [h3, h4]
  · rw [hrec]
    exact List.length_filter_le _ _
  · rw [hrec]
    constructor
    · intro hlen r hr hapex
      have hall := (List.filter_eq_self.1
        (List.Sublist.eq_of_length (List.filter_sublist _) hlen)) r hr
      have hp : isApexNS dc.Name r = true := by simp [isApexNS, hapex.1, hapex.2]
      simp [hp] at hall
    · intro hall
      have : dc.Records.filter (fun r => !isApexNS dc.Name r) = dc.Records := by
        apply List.filter_eq_self.2
        intro r hr
        have := hall r hr
        simp only [isApexNS, Bool.not_eq_true', Bool.and_eq_false_imp, beq_iff_eq,
          beq_eq_false_iff_ne, ne_eq]
        exact fun a b => this ⟨a, b⟩
      rw [this]

/-! ## Theorems on the list of corrections -/

theorem existingOriginal_of_hasOrigin (e : Correlation) (h : hasOrigin e = true) :
    ∃ old, existingOriginal e = .returned old := by
  unfold hasOrigin at h
  unfold existingOriginal
  cases hex : e.Existing with
  | none => simp [hex] at h
  | some ex =>
    cases horig : ex.Original with
    | none => simp [hex, horig] at h
    | some old => exact ⟨old, by simp only [horig]⟩

theorem delLoop_spec (d : Deps) (n : NameCom σ) (domain : String) (l : List Correlation)
    (acc : List (Correction σ)) (h : ∀ e ∈ l, hasOrigin e = true) :
    ∃ cs, delLoop d n domain l acc = .returned (acc ++ cs) ∧
      List.Forall₂ (DeleteCorrection d n domain) l cs := by
  induction l generalizing acc with
  | nil => exact ⟨[], by simp [delLoop], List.Forall₂.nil⟩
  | cons e rest ih =>
    obtain ⟨old, hold⟩ := existingOriginal_of_hasOrigin e (h e (List.mem_cons_self _ _))
    obtain ⟨cs, hcs, hall⟩ := ih (acc ++ [⟨d.CorrelationString e, delAction n old domain⟩])
      (fun x hx => h x (List.mem_cons_of_mem _ hx))
    obtain ⟨ex, hex, horig⟩ := existingOriginal_returned e old hold
    refine ⟨⟨d.CorrelationString e, delAction n old domain⟩ :: cs, ?_, List.Forall₂.cons ?_ hall⟩
    · rw [delLoop, hold]
      simp only
      rw [hcs, List.append_assoc]
      rfl
    · exact ⟨ex, old, hex, horig, rfl, fun w => rfl⟩

theorem createLoop_spec (d : Deps) (n : NameCom σ) (domain : String) (l : List Correlation)
    (acc : List (Correction σ)) :
    ∃ cs, createLoop d n domain l acc = .returned (acc ++ cs) ∧
      List.Forall₂ (CreateCorrection d n domain) l cs := by
  induction l generalizing acc with
  | nil => exact ⟨[], by simp [createLoop], List.Forall₂.nil⟩
  | cons e rest ih =>
    obtain ⟨cs, hcs, hall⟩ :=
      ih (acc ++ [⟨d.CorrelationString e, createAction d n e.Desired domain⟩])
    refine ⟨⟨d.CorrelationString e, createAction d n e.Desired domain⟩ :: cs, ?_,
      List.Forall₂.cons ?_ hall⟩
    · rw [createLoop, hcs, List.append_assoc]
      rfl
    · refine ⟨rfl, ?_⟩
      intro new hnew w
      have hF : createAction d n e.Desired domain w = createRecord d n new domain w := by
        rw [hnew]
        rfl
      refine ⟨hF, ?_, ?_⟩
      · intro ht
        obtain ⟨record, hrec⟩ := createRecord_sends d n new domain w ht
        exact ⟨record, by rw [← hrec]; exact hF⟩
      · intro ht
        rw [← createRecord_other d n new domain w ht]
        exact hF

theorem replaceCorrection_of_modAction (d : Deps) (n : NameCom σ) (domain : String)
    (chng : Correlation) (c : Correction σ) (old : NamecomRecord)
    (hold : existingOriginal chng = .returned old)
    (hmsg : c.Msg = d.CorrelationString chng)
    (hF : c.F = modAction d n old chng.Desired domain) :
    ReplaceCorrection d n domain chng c := by
  obtain ⟨ex, hex, horig⟩ := existingOriginal_returned chng old hold
  refine ⟨ex, old, hex, horig, hmsg, fun w => ⟨rfl, ?_, ?_⟩⟩
  · intro err herr
    rw [hF]
    exact modAction_delete_failed d n old _ _ w err herr
  · intro hok new hnew
    have hgo : c.F w = createRecord d n new domain (deleteRecord n old.ID domain w).1 := by
      rw [hF, modAction_delete_ok d n old _ _ w hok, hnew]
      rfl
    refine ⟨hgo, ?_, ?_⟩
    · intro ht
      obtain ⟨record, hrec⟩ := createRecord_sends d n new domain _ ht
      exact ⟨record, by rw [← hrec]; exact hgo⟩
    · intro ht
      rw [hgo, createRecord_other d n new domain _ ht]

theorem modLoop_spec (d : Deps) (n : NameCom σ) (domain : String) (l : List Correlation)
    (acc : List (Correction σ)) (h : ∀ e ∈ l, hasOrigin e = true) :
    ∃ cs, modLoop d n domain l acc = .returned (acc ++ cs) ∧
      List.Forall₂ (ReplaceCorrection d n domain) l cs := by
  induction l generalizing acc with
  | nil => exact ⟨[], by simp [modLoop], List.Forall₂.nil⟩
  | cons e rest ih =>
    obtain ⟨old, hold⟩ := existingOriginal_of_hasOrigin e (h e (List.mem_cons_self _ _))
    obtain ⟨cs, hcs, hall⟩ :=
      ih (acc ++ [⟨d.CorrelationString e, modAction d n old e.Desired domain⟩])
        (fun x hx => h x (List.mem_cons_of_mem _ hx))
    obtain ⟨ex, hex, horig⟩ := existingOriginal_returned e old hold
    refine ⟨⟨d.CorrelationString e, modAction d n old e.Desired domain⟩ :: cs, ?_,
      List.Forall₂.cons ?_ hall⟩
    · rw [modLoop, hold]
      simp only
      rw [hcs, List.append_assoc]
      rfl
    · exact replaceCorrection_of_modAction d n domain e _ old hold rfl rfl

theorem buildCorrections_spec (d : Deps) (n : NameCom σ) (domain : String) (r : DiffResult)
    (h : ∀ e ∈ r.del ++ r.mod, hasOrigin e = true) :
    ∃ dels creates mods,
      buildCorrections d n domain r = .returned (dels ++ creates ++ mods) ∧
      List.Forall₂ (DeleteCorrection d n domain) r.del dels ∧
      List.Forall₂ (CreateCorrection d n domain) r.create creates ∧
      List.Forall₂ (ReplaceCorrection d n domain) r.mod mods := by
  obtain ⟨dels, hd, hdall⟩ := delLoop_spec d n domain r.del []
    (fun e he => h e (List.mem_append_left _ he))
  obtain ⟨creates, hc, hcall⟩ := createLoop_spec d n domain r.create ([] ++ dels)
  obtain ⟨mods, hm, hmall⟩ := modLoop_spec d n domain r.mod ([] ++ dels ++ creates)
    (fun e he => h e (List.mem_append_right _ he))
  refine ⟨dels, creates, mods, ?_, hdall, hcall, hmall⟩
  unfold buildCorrections
  rw [hd]
  simp only
  rw [hc]
  simp only
  rw [hm, List.nil_append]

/-- Once the fetch, the conversion and the differ have given their results, the
call ends as the three loops end. -/
theorem GetDomainCorrections_of_stages (d : Deps) (n : NameCom σ) (fuel : Nat)
    (dc : DomainConfig) (w w' : World σ) (records : List NamecomRecord)
    (actual : List RecordConfig) (r : DiffResult)
    (hget : getRecords n fuel (d.Punycode dc).Name w = some (w', (records, none)))
    (hact : toRecords d (d.Punycode dc).Name records = .returned actual)
    (hdiff : d.IncrementalDiff (normalizeDeclared (d.Punycode dc))
      (d.PostProcessRecords actual) = .returned r) :
    (∀ cs, buildCorrections d n (d.Punycode dc).Name r = .returned cs →
        GetDomainCorrections d n fuel dc w =
          some ⟨w', normalizeDeclared (d.Punycode dc), .returned (cs, none)⟩) ∧
      (∀ cs, GetDomainCorrections d n fuel dc w =
          some ⟨w', normalizeDeclared (d.Punycode dc), .returned (cs, none)⟩ →
        buildCorrections d n (d.Punycode dc).Name r = .returned cs) := by
  have hname : (normalizeDeclared (d.Punycode dc)).Name = (d.Punycode dc).Name := rfl
  constructor
  · intro cs hb
    rw [← hname] at hb
    simp only [GetDomainCorrections, hget, hact, hdiff, hb]
  · intro cs hres
    simp only [GetDomainCorrections, hget, hact, hdiff] at hres
    cases hb : buildCorrections d n (normalizeDeclared (d.Punycode dc)).Name r with
    | panicked v =>
      rw [hb] at hres
      simp only [Option.some.injEq, GdcExec.mk.injEq] at hres
      exact absurd hres.2.2 (by intro h; cases h)
    | returned cs1 =>
      rw [hb] at hres
      simp only [Option.some.injEq, GdcExec.mk.injEq, Outcome.returned.injEq,
        Prod.mk.injEq] at hres
      rw [← hres.2.2.1]
      exact hb

theorem hasOrigin_of_existingOriginal (e : Correlation) (old : NamecomRecord)
    (h : existingOriginal e = .returned old) : hasOrigin e = true := by
  obtain ⟨ex, hex, horig⟩ := existingOriginal_returned e old h
  simp [hasOrigin, hex, horig]

theorem delLoop_returned_origin (d : Deps) (n : NameCom σ) (domain : String)
    (l : List Correlation) (acc cs : List (Correction σ))
    (h : delLoop d n domain l acc = .returned cs) : ∀ e ∈ l, hasOrigin e = true := by
  induction l generalizing acc with
  | nil => exact fun e he => absurd he (List.not_mem_nil _)
  | cons x rest ih =>
    rw [delLoop] at h
    split at h
    · cases h
    · rename_i old hold
      intro e he
      rcases List.mem_cons.1 he with rfl | he
      · exact hasOrigin_of_existingOriginal _ old hold
      · exact ih _ h e he

theorem buildCorrections_returned_origin (d : Deps) (n : NameCom σ) (domain : String)
    (r : DiffResult) (cs : List (Correction σ))
    (h : buildCorrections d n domain r = .returned cs) :
    ∀ e ∈ r.del ++ r.mod, hasOrigin e = true := by
  unfold buildCorrections at h
  split at h
  · cases h
  · rename_i c1 hdel
    split at h
    · cases h
    · rename_i c2 hcre
      intro e he
      rcases List.mem_append.1 he with he | he
      · exact delLoop_returned_origin d n domain r.del [] c1 hdel e he
      · obtain ⟨old, _, hold, _⟩ := (modLoop_returned d n domain r.mod c2 cs h).2 e he
        exact hasOrigin_of_existingOriginal e old hold

/-- C7, amended: take a call of `GetDomainCorrections` whose fetch gave
`records`, whose conversion gave `actual`, to which the differ gave the change
sets `r` for the normalised declared side and `actual`, and which returned the
corrections `cs`.  For every replace entry of `r` a correction of `cs` has the
entry's message and an action that, in any world, first sends the delete
request for the ID of the origin of the entry's existing record.  If that
delete fails, the action returns the delete's error and no create request is
sent.  If it succeeds, the action calls `createRecord` on the desired record:
for a record of type A, AAAA, ANAME, CNAME, MX, NS, TXT or SRV exactly one
create request follows and its result is the action's; for any other type no
create request is sent and the action panics. -/
theorem replace_correction_delete_then_create (d : Deps) (n : NameCom σ) (fuel : Nat)
    (dc : DomainConfig) (w w' : World σ) (records : List NamecomRecord)
    (actual : List RecordConfig) (r : DiffResult) (cs : List (Correction σ))
    (hget : getRecords n fuel (d.Punycode dc).Name w = some (w', (records, none)))
    (hact : toRecords d (d.Punycode dc).Name records = .returned actual)
    (hdiff : d.IncrementalDiff (normalizeDeclared (d.Punycode dc))
      (d.PostProcessRecords actual) = .returned r)
    (hres : GetDomainCorrections d n fuel dc w =
      some ⟨w', normalizeDeclared (d.Punycode dc), .returned (cs, none)⟩) :
    ∀ chng ∈ r.mod, ∃ c ∈ cs, ReplaceCorrection d n (d.Punycode dc).Name chng c := by
  have hbuild := (GetDomainCorrections_of_stages d n fuel dc w w' records actual r
    hget hact hdiff).2 cs hres
  intro chng hmem
  obtain ⟨old, c, hold, hc, hmsg, hF⟩ := buildCorrections_mod d n _ r cs hbuild chng hmem
  exact ⟨c, hc, replaceCorrection_of_modAction d n _ chng c old hold hmsg hF⟩

/-- Witness of C7, amended: the example zone at the example provider, with the
differ that replaces every fetched record by the first declared one; the entry
is the one for the fetched A record. -/
theorem replace_correction_delete_then_create_witness :
    ∃ c ∈ exampleCorrections,
      ReplaceCorrection exampleReplaceDeps (NameCom.mk (exampleClient 0))
        (exampleReplaceDeps.Punycode exampleZone).Name
        ⟨exampleActual[1]?, (normalizeDeclared exampleZone).Records.head?⟩ c :=
  replace_correction_delete_then_create exampleReplaceDeps (NameCom.mk (exampleClient 0)) 5
    exampleZone ⟨0, []⟩ ⟨2, listRequests "example.com" [1, 2]⟩
    [exampleWire 11 "CNAME" "www.example.com." "example.org.",
      exampleWire 12 "A" "example.com." "1.2.3.4",
      exampleWire 13 "MX" "example.com." "mail.example.org."]
    exampleActual
    ⟨[], [], exampleActual.map (fun a => ⟨some a, (normalizeDeclared exampleZone).Records.head?⟩)⟩
    exampleCorrections (by decide) (by decide) rfl rfl
    ⟨exampleActual[1]?, (normalizeDeclared exampleZone).Records.head?⟩ (by decide)

/-- C7 as stated fails when the desired record is a CAA record, as
`SetTargetCAA` builds it.  The provider publishes a CAA record at the apex and
the zone declares another one there, so the differ gives one replace entry, from
the fetched CAA record to the declared one, and `GetDomainCorrections` returns
one replace correction.  Run in the world the call left, its action deletes the
record 41, which succeeds, and then sends no create request and returns no
result: it panics. -/
theorem replace_correction_panics_on_caa :
    exampleCaa.Type_ = "CAA" ∧
      GetDomainCorrections exampleReplaceDeps (NameCom.mk caaClient) 5 exampleCaaZone ⟨0, []⟩ =
        some ⟨⟨1, listRequests "example.com" [1]⟩, normalizeDeclared exampleCaaZone,
          .returned (exampleCaaReplacements, none)⟩ ∧
      exampleReplaceDeps.IncrementalDiff (normalizeDeclared exampleCaaZone) exampleCaaActual =
        .returned ⟨[], [], exampleCaaActual.map (fun a => ⟨some a, some exampleCaa⟩)⟩ ∧
      exampleCaaActual.map (fun a => (a.Type_, a.NameFQDN, a.Original.map (fun o => o.ID))) =
        [("CAA", "example.com", some 41)] ∧
      caaClient.DeleteRecord 1 ⟨"example.com", 41⟩ = (2, none) ∧
      exampleCaaReplacements.map (fun c => c.F ⟨1, listRequests "example.com" [1]⟩) =
        [(⟨2, [.list ⟨"example.com", 1⟩, .delete ⟨"example.com", 41⟩]⟩,
            .panicked (.text "createRecord rtype CAA unimplemented"))] := by
  refine ⟨by decide, rfl, by decide, by decide, by decide, by decide⟩

/-- C17, amended: take a call of `GetDomainCorrections` whose fetch and
conversion succeeded and to which the differ gave the change sets `r`.  The
call returns a list of corrections whenever every del and mod entry has an
existing record with an origin.  A list it returns has
`|del| + |create| + |mod|` corrections, one per entry: first the delete
corrections in the order of `del`, then the create corrections in the order of
`create`, then the replace corrections in the order of `mod`.  Each correction
has the message of its entry.  A delete correction's action sends exactly one
delete request, for the ID of the origin of the entry's existing record.  A
create correction's action is one call of `createRecord` on the entry's desired
record: exactly one create request for a record of type A, AAAA, ANAME, CNAME,
MX, NS, TXT or SRV, and for any other type no request and a panic. -/
theorem GetDomainCorrections_one_per_entry (d : Deps) (n : NameCom σ) (fuel : Nat)
    (dc : DomainConfig) (w w' : World σ) (records : List NamecomRecord)
    (actual : List RecordConfig) (r : DiffResult)
    (hget : getRecords n fuel (d.Punycode dc).Name w = some (w', (records, none)))
    (hact : toRecords d (d.Punycode dc).Name records = .returned actual)
    (hdiff : d.IncrementalDiff (normalizeDeclared (d.Punycode dc))
      (d.PostProcessRecords actual) = .returned r) :
    ((∀ e ∈ r.del ++ r.mod, hasOrigin e = true) →
        ∃ cs, GetDomainCorrections d n fuel dc w =
          some ⟨w', normalizeDeclared (d.Punycode dc), .returned (cs, none)⟩) ∧
      (∀ cs, GetDomainCorrections d n fuel dc w =
          some ⟨w', normalizeDeclared (d.Punycode dc), .returned (cs, none)⟩ →
        ∃ dels creates mods, cs = dels ++ creates ++ mods ∧
          cs.length = r.del.length + r.create.length + r.mod.length ∧
          List.Forall₂ (DeleteCorrection d n (d.Punycode dc).Name) r.del dels ∧
          List.Forall₂ (CreateCorrection d n (d.Punycode dc).Name) r.create creates ∧
          List.Forall₂ (ReplaceCorrection d n (d.Punycode dc).Name) r.mod mods) := by
  have hst := GetDomainCorrections_of_stages d n fuel dc w w' records actual r hget hact hdiff
  constructor
  · intro horig
    obtain ⟨dels, creates, mods, hb, _⟩ :=
      buildCorrections_spec d n (d.Punycode dc).Name r horig
    exact ⟨_, hst.1 _ hb⟩
  · intro cs hres
    have hbuild := hst.2 cs hres
    obtain ⟨dels, creates, mods, hb, hd, hc, hm⟩ :=
      buildCorrections_spec d n (d.Punycode dc).Name r
        (buildCorrections_returned_origin d n _ r cs hbuild)
    rw [hbuild] at hb
    have hcs : cs = dels ++ creates ++ mods := Outcome.returned.inj hb
    refine ⟨dels, creates, mods, hcs, ?_, hd, hc, hm⟩
    rw [hcs, List.length_append, List.length_append, hd.length_eq, hc.length_eq, hm.length_eq]

/-- Witness of C17, amended: the example zone at the example provider with the
differ `exampleDiff`: three deletes, four creates and three replaces. -/
theorem GetDomainCorrections_one_per_entry_witness :
    (∃ cs, GetDomainCorrections exampleFullDeps (NameCom.mk (exampleClient 0)) 5 exampleZone
        ⟨0, []⟩ =
      some ⟨⟨2, listRequests "example.com" [1, 2]⟩,
        normalizeDeclared (exampleFullDeps.Punycode exampleZone), .returned (cs, none)⟩) ∧
      (∃ dels creates mods, exampleFullCorrections = dels ++ creates ++ mods ∧
        exampleFullCorrections.length =
          (exampleDiff (normalizeDeclared exampleZone) exampleActual).del.length +
          (exampleDiff (normalizeDeclared exampleZone) exampleActual).create.length +
          (exampleDiff (normalizeDeclared exampleZone) exampleActual).mod.length ∧
        List.Forall₂
          (DeleteCorrection exampleFullDeps (NameCom.mk (exampleClient 0))
            (exampleFullDeps.Punycode exampleZone).Name)
          (exampleDiff (normalizeDeclared exampleZone) exampleActual).del dels ∧
        List.Forall₂
          (CreateCorrection exampleFullDeps (NameCom.mk (exampleClient 0))
            (exampleFullDeps.Punycode exampleZone).Name)
          (exampleDiff (normalizeDeclared exampleZone) exampleActual).create creates ∧
        List.Forall₂
          (ReplaceCorrection exampleFullDeps (NameCom.mk (exampleClient 0))
            (exampleFullDeps.Punycode exampleZone).Name)
          (exampleDiff (normalizeDeclared exampleZone) exampleActual).mod mods) :=
  ⟨(GetDomainCorrections_one_per_entry exampleFullDeps (NameCom.mk (exampleClient 0)) 5
      exampleZone ⟨0, []⟩ ⟨2, listRequests "example.com" [1, 2]⟩
      [exampleWire 11 "CNAME" "www.example.com." "example.org.",
        exampleWire 12 "A" "example.com." "1.2.3.4",
        exampleWire 13 "MX" "example.com." "mail.example.org."]
      exampleActual (exampleDiff (normalizeDeclared exampleZone) exampleActual)
      (by decide) (by decide) rfl).1 (by decide),
    (GetDomainCorrections_one_per_entry exampleFullDeps (NameCom.mk (exampleClient 0)) 5
      exampleZone ⟨0, []⟩ ⟨2, listRequests "example.com" [1, 2]⟩
      [exampleWire 11 "CNAME" "www.example.com." "example.org.",
        exampleWire 12 "A" "example.com." "1.2.3.4",
        exampleWire 13 "MX" "example.com." "mail.example.org."]
      exampleActual (exampleDiff (normalizeDeclared exampleZone) exampleActual)
      (by decide) (by decide) rfl).2 exampleFullCorrections rfl⟩

/-- C17 as stated fails when the differ asks for a CAA record, as `SetTargetCAA`
builds it, to be created.  For the zone that declares it, the differ
`exampleDiff` gives one create entry, for that record, and
`GetDomainCorrections` returns seven corrections: three deletes, the create and
three replaces.  Run on the provider in its first state, the create correction,
the fourth of the list, sends no request at all and panics. -/
theorem create_correction_panics_on_caa :
    exampleCaa.Type_ = "CAA" ∧
      GetDomainCorrections exampleFullDeps (NameCom.mk (exampleClient 0)) 5 exampleCaaZone
          ⟨0, []⟩ =
        some ⟨⟨2, listRequests "example.com" [1, 2]⟩, normalizeDeclared exampleCaaZone,
          .returned (exampleCaaCorrections, none)⟩ ∧
      (exampleDiff (normalizeDeclared exampleCaaZone) exampleActual).create =
        [⟨none, some exampleCaa⟩] ∧
      (exampleDiff (normalizeDeclared exampleCaaZone) exampleActual).del.length = 3 ∧
      exampleCaaCorrections.map (fun c => c.F ⟨0, []⟩) =
        [(⟨1, [.delete ⟨"example.com", 11⟩]⟩, .returned none),
          (⟨1, [.delete ⟨"example.com", 12⟩]⟩, .returned none),
          (⟨1, [.delete ⟨"example.com", 13⟩]⟩, .returned (some (.provider "delete failed"))),
          (⟨0, []⟩, .panicked (.text "createRecord rtype CAA unimplemented")),
          (⟨1, [.delete ⟨"example.com", 11⟩]⟩,
            .panicked (.text "createRecord rtype CAA unimplemented")),
          (⟨1, [.delete ⟨"example.com", 12⟩]⟩,
            .panicked (.text "createRecord rtype CAA unimplemented")),
          (⟨1, [.delete ⟨"example.com", 13⟩]⟩,
            .returned (some (.provider "delete failed")))] := by
  refine ⟨by decide, rfl, by decide, by decide, by decide⟩

end DNSControl
